import Mathlib

/-!
Verification of the Tournament Scheduling & Standings Engine of the
pes-league-app repository.  The definitions below are shallow embeddings of
the TypeScript functions in `src/app/dashboard/page.tsx` and
`src/unnamed/part_001` (fixtures module): pure functions become Lean
functions, JavaScript numbers that hold integers become `Int`/`Nat`,
values that can be `null`/`NaN` become `Option`, fallible operations
return `Except`.  Mutable array idioms (`Map` accumulation, in-place
rotation and Fisher-Yates swaps) are embedded as explicit functional
state passing on lists.
-/

/-! ### Generic list helpers -/

/-- `Array.from(new Set(arr))`: deduplication keeping the first occurrence
of each element, in insertion order (JavaScript `Set` semantics). -/
def setDedup {α : Type} [DecidableEq α] : List α → List α
  | [] => []
  | x :: xs => x :: setDedup (xs.filter (fun y => y ≠ x))
termination_by l => l.length
decreasing_by
  simp only [List.length_cons]
  exact Nat.lt_succ_of_le (List.length_filter_le _ _)

theorem setDedup_sublist {α : Type} [DecidableEq α] (l : List α) :
    (setDedup l).Sublist l := by
  induction l using setDedup.induct with
  | case1 => rw [setDedup]
  | case2 x xs ih =>
    rw [setDedup]
    exact (ih.trans (List.filter_sublist xs)).cons₂ x

theorem mem_setDedup {α : Type} [DecidableEq α] {a : α} {l : List α} :
    a ∈ setDedup l ↔ a ∈ l := by
  induction l using setDedup.induct with
  | case1 => simp [setDedup]
  | case2 x xs ih =>
    rw [setDedup]
    constructor
    · intro h
      rcases List.mem_cons.1 h with rfl | h2
      · exact List.mem_cons_self _ _
      · exact List.mem_cons_of_mem _ (List.mem_of_mem_filter (ih.1 h2))
    · intro h
      rcases List.mem_cons.1 h with rfl | h2
      · exact List.mem_cons_self _ _
      · by_cases hax : a = x
        · exact hax ▸ List.mem_cons_self _ _
        · refine List.mem_cons_of_mem _ (ih.2 (List.mem_filter.2 ⟨h2, ?_⟩))
          simpa using hax

theorem nodup_setDedup {α : Type} [DecidableEq α] (l : List α) :
    (setDedup l).Nodup := by
  induction l using setDedup.induct with
  | case1 => simp [setDedup]
  | case2 x xs ih =>
    rw [setDedup]
    refine List.nodup_cons.2 ⟨fun hmem => ?_, ih⟩
    have := (mem_setDedup.1 hmem)
    simp [List.mem_filter] at this

theorem setDedup_eq_self_of_nodup {α : Type} [DecidableEq α] {l : List α}
    (h : l.Nodup) : setDedup l = l := by
  induction l using setDedup.induct with
  | case1 => rw [setDedup]
  | case2 x xs ih =>
    rw [setDedup]
    rcases List.nodup_cons.1 h with ⟨hx, hxs⟩
    have hfil : xs.filter (fun y => y ≠ x) = xs := by
      apply List.filter_eq_self.2
      intro y hy
      simp only [ne_eq, decide_eq_true_eq]
      intro hyx
      exact hx (hyx ▸ hy)
    rw [hfil] at ih ⊢
    rw [ih hxs]

theorem nodup_of_setDedup_length {α : Type} [DecidableEq α] {l : List α}
    (h : (setDedup l).length = l.length) : l.Nodup := by
  have := (setDedup_sublist l).eq_of_length h
  simpa [this] using nodup_setDedup l

/-- If a list has no duplicates and exactly one of its elements satisfies
`p`, then `countP p` is `1`. -/
theorem countP_eq_one_of_unique {α : Type} {l : List α} {p : α → Bool}
    (hnd : l.Nodup) {a : α} (ha : a ∈ l) (hpa : p a = true)
    (huniq : ∀ b ∈ l, p b = true → b = a) : l.countP p = 1 := by
  induction l with
  | nil => cases ha
  | cons x xs ih =>
    rcases List.nodup_cons.1 hnd with ⟨hx, hxs⟩
    rcases List.mem_cons.1 ha with rfl | hmem
    · rw [List.countP_cons, if_pos hpa]
      have hzero : xs.countP p = 0 := by
        apply List.countP_eq_zero.2
        intro b hb hpb
        exact hx ((huniq b (List.mem_cons_of_mem _ hb) hpb) ▸ hb)
      omega
    · rw [List.countP_cons]
      have hpx : ¬ p x = true := by
        intro hpx
        exact hx ((huniq x (List.mem_cons_self _ _) hpx).symm ▸ hmem)
      rw [if_neg hpx]
      exact ih hxs hmem (fun b hb hpb => huniq b (List.mem_cons_of_mem _ hb) hpb)

/-! ### RoundRobinGenerator (`generateSchedule`, dashboard/page.tsx 1497-1546)

The circle method: if the team count is odd a synthetic `"__BYE__"` marker
is appended; round `r` pairs position `i` with position `n - 1 - i`,
position 0 stays fixed and after every round the remaining elements rotate
one step, the last element becoming second.  Pairings touching the bye
marker are dropped.  Odd rounds keep the first-named side at home, even
rounds swap. -/

def BYE : String := "__BYE__"

structure SchedRow where
  round : Nat
  home_team_id : String
  away_team_id : String
deriving DecidableEq, Repr

/-- The inner `for (let i = 0; i < half; i++)` loop of one round. -/
def roundRows (n r : Nat) (arr : List String) : List SchedRow :=
  (List.range (n / 2)).filterMap fun i =>
    let t1 := arr.getD i ""
    let t2 := arr.getD (n - 1 - i) ""
    if t1 = BYE ∨ t2 = BYE then none
    else if r % 2 = 1 then some ⟨r, t1, t2⟩ else some ⟨r, t2, t1⟩

/-- `const fixed = arr[0]; const rest = arr.slice(1);
rest.unshift(rest.pop()); arr = [fixed, ...rest]`. -/
def rotateOnce (arr : List String) : List String :=
  match arr with
  | [] => []
  | f :: rest =>
    match rest.getLast? with
    | none => [f]
    | some last => f :: last :: rest.dropLast

/-- The outer `for (let r = 1; r <= rounds; r++)` loop:
`genRounds n r k arr` emits `k` further rounds starting at round `r`. -/
def genRounds (n : Nat) : Nat → Nat → List String → List SchedRow
  | _, 0, _ => []
  | r, k + 1, arr => roundRows n r arr ++ genRounds n (r + 1) k (rotateOnce arr)

/-- Single-leg schedule for a team list (bye marker already handled). -/
def buildRows (teams0 : List String) : List SchedRow :=
  let teams := if teams0.length % 2 = 1 then teams0 ++ [BYE] else teams0
  genRounds teams.length 1 (teams.length - 1) teams

/-- Second-leg mirror used when `double` is set: home/away swapped and the
round number offset by the number of first-leg rounds. -/
def mirrorRow (off : Nat) (x : SchedRow) : SchedRow :=
  ⟨x.round + off, x.away_team_id, x.home_team_id⟩

/-- `generateSchedule` (scheduling core; the surrounding Supabase reads,
admin gating and persistence are the excluded orchestration layer). -/
def generateSchedule (teams0 : List String) (double : Bool) :
    Except String (List SchedRow) :=
  if teams0.length < 2 then Except.error "Treba bar 2 tima u turniru."
  else
    let n' := if teams0.length % 2 = 1 then teams0.length + 1 else teams0.length
    let rows := buildRows teams0
    if double then Except.ok (rows ++ rows.map (mirrorRow (n' - 1)))
    else Except.ok rows

/-! ### Circle-method analysis

`stateAt f rest k` is the working array before round `k + 1`: position 0
(`f`) stays fixed, the remaining elements have rotated one step per
completed round (the last element moving to slot 1 each time). -/

/-- Symmetric test that a row pairs `a` with `b` (either orientation). -/
def pairMatch (a b : String) (x : SchedRow) : Bool :=
  decide ((x.home_team_id = a ∧ x.away_team_id = b) ∨
    (x.home_team_id = b ∧ x.away_team_id = a))

def stateAt (f : String) (rest : List String) (k : Nat) : List String :=
  f :: rest.rotate ((rest.length - 1) * k)

theorem stateAt_zero (f : String) (rest : List String) :
    stateAt f rest 0 = f :: rest := by
  simp [stateAt]

theorem length_stateAt (f : String) (rest : List String) (k : Nat) :
    (stateAt f rest k).length = rest.length + 1 := by
  simp [stateAt]

theorem stateAt_perm (f : String) (rest : List String) (k : Nat) :
    (stateAt f rest k).Perm (f :: rest) :=
  List.Perm.cons f (List.rotate_perm rest _)

theorem nodup_stateAt {f : String} {rest : List String} (k : Nat)
    (h : (f :: rest).Nodup) : (stateAt f rest k).Nodup :=
  ((stateAt_perm f rest k).nodup_iff).2 h

theorem drop_length_sub_one {α : Type} : ∀ (l : List α) (h : l ≠ []),
    l.drop (l.length - 1) = [l.getLast h]
  | [_], _ => rfl
  | x :: y :: t, _ => by
    have h2 : (y :: t) ≠ [] := by simp
    have h1 : (x :: y :: t).length - 1 = (y :: t).length - 1 + 1 := by
      simp
    rw [h1, List.drop_succ_cons, drop_length_sub_one (y :: t) h2,
      List.getLast_cons h2]

theorem rotateOnce_cons (f : String) (rest : List String) (h : rest ≠ []) :
    rotateOnce (f :: rest) = f :: rest.rotate (rest.length - 1) := by
  rw [List.rotate_eq_drop_append_take (by omega : rest.length - 1 ≤ rest.length)]
  rw [drop_length_sub_one rest h, List.singleton_append, ← List.dropLast_eq_take]
  simp [rotateOnce, List.getLast?_eq_getLast rest h]

theorem rotateOnce_stateAt (f : String) {rest : List String} (h : rest ≠ [])
    (k : Nat) : rotateOnce (stateAt f rest k) = stateAt f rest (k + 1) := by
  have hR : rest.rotate ((rest.length - 1) * k) ≠ [] := by
    intro hc
    apply h
    have hlen := List.length_rotate rest ((rest.length - 1) * k)
    rw [hc] at hlen
    exact List.length_eq_zero.1 hlen.symm
  rw [stateAt, rotateOnce_cons f _ hR, List.length_rotate, List.rotate_rotate,
    stateAt, ← Nat.mul_succ]

theorem getD_stateAt_zero (f : String) (rest : List String) (k : Nat) :
    (stateAt f rest k).getD 0 "" = f := rfl

theorem getD_stateAt (f : String) (rest : List String) (k p : Nat)
    (h1 : 1 ≤ p) (h2 : p ≤ rest.length) :
    (stateAt f rest k).getD p "" =
      rest.getD ((p - 1 + (rest.length - 1) * k) % rest.length) "" := by
  have hm : 0 < rest.length := by omega
  rw [stateAt]
  obtain ⟨q, rfl⟩ : ∃ q, p = q + 1 := ⟨p - 1, by omega⟩
  rw [List.getD_cons_succ]
  rw [List.getD_eq_getElem?_getD,
    List.getElem?_eq_getElem (by rw [List.length_rotate]; omega : q < (rest.rotate ((rest.length - 1) * k)).length)]
  rw [List.getElem_rotate]
  rw [List.getD_eq_getElem?_getD,
    List.getElem?_eq_getElem (Nat.mod_lt _ hm)]
  simp

/-- One round of the circle method contains the pairing of `a` with `b`
exactly when their positions in the working array sum to `n - 1`, and then
exactly once. -/
theorem countP_roundRows_pair (arr : List String)
    (hne : arr.length % 2 = 0) (h2 : 2 ≤ arr.length) (hnd : arr.Nodup)
    {a b : String} (ha : a ≠ BYE) (hb : b ≠ BYE) (hab : a ≠ b)
    (pa pb : Nat) (hpa : pa < arr.length) (hpb : pb < arr.length)
    (hva : arr.getD pa "" = a) (hvb : arr.getD pb "" = b) (r : Nat) :
    (roundRows arr.length r arr).countP (pairMatch a b) =
      if pa + pb = arr.length - 1 then 1 else 0 := by
  have hga : arr.get ⟨pa, hpa⟩ = a := by
    rw [List.getD_eq_getElem?_getD, List.getElem?_eq_getElem hpa] at hva
    simpa using hva
  have hgb : arr.get ⟨pb, hpb⟩ = b := by
    rw [List.getD_eq_getElem?_getD, List.getElem?_eq_getElem hpb] at hvb
    simpa using hvb
  have hpapb : pa ≠ pb := by
    intro he
    apply hab
    rw [← hga, ← hgb]
    subst he
    rfl
  rw [roundRows, List.countP_filterMap]
  refine Eq.trans (List.countP_congr (q := fun i =>
      decide ((i = pa ∧ arr.length - 1 - i = pb) ∨
        (i = pb ∧ arr.length - 1 - i = pa))) ?_) ?_
  · intro i hi
    have hi2 : i < arr.length / 2 := List.mem_range.1 hi
    have hilen : i < arr.length := by omega
    have hjlen : arr.length - 1 - i < arr.length := by omega
    have e1 : arr.getD i "" = arr.get ⟨i, hilen⟩ := by
      rw [List.getD_eq_getElem?_getD, List.getElem?_eq_getElem hilen]
      rfl
    have e2 : arr.getD (arr.length - 1 - i) "" = arr.get ⟨arr.length - 1 - i, hjlen⟩ := by
      rw [List.getD_eq_getElem?_getD, List.getElem?_eq_getElem hjlen]
      rfl
    have va : (arr.get ⟨i, hilen⟩ = a) ↔ i = pa := by
      rw [← hga]
      exact ⟨fun h => hnd.getElem_inj_iff.1 h, fun h => by subst h; rfl⟩
    have vb : (arr.get ⟨i, hilen⟩ = b) ↔ i = pb := by
      rw [← hgb]
      exact ⟨fun h => hnd.getElem_inj_iff.1 h, fun h => by subst h; rfl⟩
    have wa : (arr.get ⟨arr.length - 1 - i, hjlen⟩ = a) ↔ arr.length - 1 - i = pa := by
      rw [← hga]
      exact ⟨fun h => hnd.getElem_inj_iff.1 h, fun h => by subst h; rfl⟩
    have wb : (arr.get ⟨arr.length - 1 - i, hjlen⟩ = b) ↔ arr.length - 1 - i = pb := by
      rw [← hgb]
      exact ⟨fun h => hnd.getElem_inj_iff.1 h, fun h => by subst h; rfl⟩
    simp only [e1, e2]
    by_cases hByeCase : arr.get ⟨i, hilen⟩ = BYE ∨ arr.get ⟨arr.length - 1 - i, hjlen⟩ = BYE
    · rw [if_pos hByeCase]
      simp only [Option.map_none', Option.getD_none]
      constructor
      · intro hfalse
        exact absurd hfalse (by simp)
      · intro hdec
        exfalso
        rcases of_decide_eq_true hdec with ⟨h1, h2⟩ | ⟨h1, h2⟩
        · rcases hByeCase with hc | hc
          · exact ha ((va.2 h1).symm.trans hc)
          · exact hb ((wb.2 h2).symm.trans hc)
        · rcases hByeCase with hc | hc
          · exact hb ((vb.2 h1).symm.trans hc)
          · exact ha ((wa.2 h2).symm.trans hc)
    · rw [if_neg hByeCase]
      by_cases hr2 : r % 2 = 1
      · rw [if_pos hr2]
        simp only [Option.map_some', Option.getD_some, pairMatch,
          decide_eq_true_eq]
        rw [va, vb, wa, wb]
      · rw [if_neg hr2]
        simp only [Option.map_some', Option.getD_some, pairMatch,
          decide_eq_true_eq]
        rw [wa, wb, va, vb]
        tauto
  · by_cases hsum : pa + pb = arr.length - 1
    · rw [if_pos hsum]
      rcases Nat.lt_or_ge pa pb with hlt | hge
      · apply countP_eq_one_of_unique (List.nodup_range _) (a := pa)
        · exact List.mem_range.2 (by omega)
        · simp only [decide_eq_true_eq]
          left
          exact ⟨by trivial, by omega⟩
        · intro c hc hdec
          have hc2 := List.mem_range.1 hc
          rcases of_decide_eq_true hdec with ⟨h1, h2⟩ | ⟨h1, h2⟩
          · exact h1
          · omega
      · have hlt : pb < pa := by omega
        apply countP_eq_one_of_unique (List.nodup_range _) (a := pb)
        · exact List.mem_range.2 (by omega)
        · simp only [decide_eq_true_eq]
          right
          exact ⟨by trivial, by omega⟩
        · intro c hc hdec
          have hc2 := List.mem_range.1 hc
          rcases of_decide_eq_true hdec with ⟨h1, h2⟩ | ⟨h1, h2⟩
          · omega
          · exact h1
    · rw [if_neg hsum]
      apply List.countP_eq_zero.2
      intro c hc
      have hc2 := List.mem_range.1 hc
      intro hdec
      rcases of_decide_eq_true hdec with ⟨h1, h2⟩ | ⟨h1, h2⟩ <;> omega

theorem sum_map_ite_eq_countP (l : List Nat) (p : Nat → Prop) [DecidablePred p] :
    (l.map (fun t => if p t then 1 else 0)).sum = l.countP (fun t => decide (p t)) := by
  induction l with
  | nil => rfl
  | cons x xs ih =>
    rw [List.map_cons, List.sum_cons, List.countP_cons, ih]
    by_cases hx : p x <;> simp [hx, Nat.add_comm]

/-- Summing the per-round indicator over all rounds when exactly one round
satisfies the condition. -/
theorem sum_ite_range_eq_one {m : Nat} (p : Nat → Prop) [DecidablePred p]
    {t0 : Nat} (ht0 : t0 < m) (hp : p t0) (huniq : ∀ t < m, p t → t = t0) :
    ((List.range m).map (fun t => if p t then 1 else 0)).sum = 1 := by
  rw [sum_map_ite_eq_countP]
  refine countP_eq_one_of_unique (List.nodup_range m) (a := t0)
    (List.mem_range.2 ht0) (by simpa using hp) ?_
  intro c hc hdec
  exact huniq c (List.mem_range.1 hc) (of_decide_eq_true hdec)

/-- `countP` of the generated schedule decomposes as a sum of per-round
counts over the successive rotation states. -/
theorem countP_genRounds (P : SchedRow → Bool) (f : String) {rest : List String}
    (h : rest ≠ []) (n : Nat) :
    ∀ (j r k : Nat),
      (genRounds n r j (stateAt f rest k)).countP P =
        ((List.range j).map
          (fun t => (roundRows n (r + t) (stateAt f rest (k + t))).countP P)).sum
  | 0, r, k => by simp [genRounds]
  | j + 1, r, k => by
    rw [genRounds, List.countP_append, rotateOnce_stateAt f h,
      countP_genRounds P f h n j (r + 1) (k + 1), List.range_succ_eq_map]
    simp only [List.map_cons, List.map_map, List.sum_cons, Nat.add_zero]
    congr 1
    apply congrArg
    apply List.map_congr_left
    intro t _
    simp only [Function.comp_apply]
    have e1 : r + 1 + t = r + Nat.succ t := by omega
    have e2 : k + 1 + t = k + Nat.succ t := by omega
    rw [e1, e2]

theorem gcd_two_of_odd {m : Nat} (hm : m % 2 = 1) : Nat.gcd m 2 = 1 := by
  rw [Nat.gcd_comm, Nat.gcd_rec, hm]
  rfl

/-- For odd `m` the congruence `2 t ≡ c [MOD m]` has exactly one solution
below `m`. -/
theorem two_mul_mod_unique {m : Nat} (hm : m % 2 = 1) (c : Nat) :
    ∃ t0, t0 < m ∧ (2 * t0) % m = c % m ∧
      ∀ t < m, (2 * t) % m = c % m → t = t0 := by
  have hm0 : 0 < m := by omega
  refine ⟨(c * ((m + 1) / 2)) % m, Nat.mod_lt _ hm0, ?_, ?_⟩
  · have h1 : Nat.ModEq m ((c * ((m + 1) / 2)) % m) (c * ((m + 1) / 2)) :=
      Nat.mod_modEq _ _
    have h2 : Nat.ModEq m (2 * ((c * ((m + 1) / 2)) % m)) (2 * (c * ((m + 1) / 2))) :=
      h1.mul_left 2
    have h3 : 2 * (c * ((m + 1) / 2)) = c * (m + 1) := by
      have : 2 * ((m + 1) / 2) = m + 1 := by omega
      calc 2 * (c * ((m + 1) / 2)) = c * (2 * ((m + 1) / 2)) := by ring
        _ = c * (m + 1) := by rw [this]
    have h4 : Nat.ModEq m (m + 1) 1 := by
      show (m + 1) % m = 1 % m
      rw [Nat.add_comm]
      exact Nat.add_mod_right 1 m ▸ (by rw [Nat.add_mod_right])
    have h5 : Nat.ModEq m (c * (m + 1)) c := by
      have := h4.mul_left c
      simpa using this
    exact (h2.trans (h3 ▸ h5))
  · intro t ht hmod
    have ht0lt : (c * ((m + 1) / 2)) % m < m := Nat.mod_lt _ hm0
    have hmod0 : (2 * ((c * ((m + 1) / 2)) % m)) % m = c % m := by
      have h1 : Nat.ModEq m ((c * ((m + 1) / 2)) % m) (c * ((m + 1) / 2)) :=
        Nat.mod_modEq _ _
      have h2 := h1.mul_left 2
      have h3 : 2 * (c * ((m + 1) / 2)) = c * (m + 1) := by
        have : 2 * ((m + 1) / 2) = m + 1 := by omega
        calc 2 * (c * ((m + 1) / 2)) = c * (2 * ((m + 1) / 2)) := by ring
          _ = c * (m + 1) := by rw [this]
      have h4 : Nat.ModEq m (m + 1) 1 := by
        show (m + 1) % m = 1 % m
        rw [Nat.add_comm, Nat.add_mod_right]
      have h5 : Nat.ModEq m (c * (m + 1)) c := by
        simpa using h4.mul_left c
      exact h2.trans (h3 ▸ h5)
    have hcc : Nat.ModEq m (2 * t) (2 * ((c * ((m + 1) / 2)) % m)) := by
      show (2 * t) % m = _ % m
      rw [hmod, hmod0]
    have := Nat.ModEq.cancel_left_of_coprime (gcd_two_of_odd hm) hcc
    have h6 : t % m = ((c * ((m + 1) / 2)) % m) % m := this
    rw [Nat.mod_eq_of_lt ht, Nat.mod_eq_of_lt ht0lt] at h6
    exact h6

theorem shift_mod_unique {m : Nat} (hm0 : 0 < m) (jb : Nat) (hjb : jb < m) :
    ∃ t0, t0 < m ∧ (jb + t0) % m = m - 1 ∧
      ∀ t < m, (jb + t) % m = m - 1 → t = t0 := by
  refine ⟨m - 1 - jb, by omega, ?_, ?_⟩
  · have e : jb + (m - 1 - jb) = m - 1 := by omega
    rw [e, Nat.mod_eq_of_lt (by omega)]
  · intro t ht hmod
    have h1 : Nat.ModEq m (jb + t) (jb + (m - 1 - jb)) := by
      show (jb + t) % m = _ % m
      rw [hmod]
      have e : jb + (m - 1 - jb) = m - 1 := by omega
      rw [e, Nat.mod_eq_of_lt (by omega)]
    have h3 : t % m = (m - 1 - jb) % m := Nat.ModEq.add_left_cancel' jb h1
    rw [Nat.mod_eq_of_lt ht, Nat.mod_eq_of_lt (by omega)] at h3
    exact h3

/-- The two rotated slots of distinct tail elements face each other
(slot sum `m - 2`) exactly when `2 t ≡ 2 m - 2 - ja - jb [MOD m]`. -/
theorem slots_sum_iff {m : Nat} (hm3 : 3 ≤ m) {ja jb t : Nat}
    (hja : ja < m) (hjb : jb < m) (hne : ja ≠ jb) :
    ((ja + t) % m + (jb + t) % m = m - 2) ↔
      (2 * t) % m = (2 * m - 2 - ja - jb) % m := by
  have hm0 : 0 < m := by omega
  constructor
  · intro hsum
    have hu : Nat.ModEq m ((ja + t) % m) (ja + t) := Nat.mod_modEq _ _
    have hv : Nat.ModEq m ((jb + t) % m) (jb + t) := Nat.mod_modEq _ _
    have huv : Nat.ModEq m ((ja + t) % m + (jb + t) % m) (ja + jb + 2 * t) := by
      have h := hu.add hv
      have e : (ja + t) + (jb + t) = ja + jb + 2 * t := by ring
      rw [e] at h
      exact h
    rw [hsum] at huv
    have h2 : Nat.ModEq m (ja + jb + (2 * m - 2 - ja - jb)) (ja + jb + 2 * t) := by
      have e : ja + jb + (2 * m - 2 - ja - jb) = (m - 2) + m := by omega
      rw [e]
      have hstep : Nat.ModEq m ((m - 2) + m) (m - 2) := by
        show ((m - 2) + m) % m = (m - 2) % m
        exact Nat.add_mod_right _ _
      exact hstep.trans huv
    exact (Nat.ModEq.add_left_cancel' (ja + jb) h2).symm
  · intro hmod
    have hul : (ja + t) % m < m := Nat.mod_lt _ hm0
    have hvl : (jb + t) % m < m := Nat.mod_lt _ hm0
    have hmodeq : ((ja + t) % m + (jb + t) % m) % m = m - 2 := by
      have e1 : ((ja + t) % m + (jb + t) % m) % m = ((ja + t) + (jb + t)) % m :=
        (Nat.add_mod _ _ _).symm
      have e2 : (ja + t) + (jb + t) = ja + jb + 2 * t := by ring
      have h3 : Nat.ModEq m (ja + jb + 2 * t) (ja + jb + (2 * m - 2 - ja - jb)) :=
        Nat.ModEq.add_left _ hmod
      have e4 : ja + jb + (2 * m - 2 - ja - jb) = (m - 2) + m := by omega
      rw [e1, e2]
      rw [show (ja + jb + 2 * t) % m = (ja + jb + (2 * m - 2 - ja - jb)) % m from h3]
      rw [e4, Nat.add_mod_right, Nat.mod_eq_of_lt (by omega)]
    have hdm := Nat.div_add_mod ((ja + t) % m + (jb + t) % m) m
    have hqlt : ((ja + t) % m + (jb + t) % m) / m < 2 :=
      Nat.div_lt_of_lt_mul (by omega)
    rw [hmodeq] at hdm
    generalize hqdef : ((ja + t) % m + (jb + t) % m) / m = q at hdm hqlt
    have hq01 : q = 0 ∨ q = 1 := by omega
    rcases hq01 with hq | hq
    · rw [hq, Nat.mul_zero] at hdm
      omega
    · rw [hq, Nat.mul_one] at hdm
      exfalso
      have hueq : (ja + t) % m = m - 1 := by omega
      have hveq : (jb + t) % m = m - 1 := by omega
      have hjab : Nat.ModEq m (ja + t) (jb + t) := by
        show (ja + t) % m = (jb + t) % m
        rw [hueq, hveq]
      have h5 : ja % m = jb % m := Nat.ModEq.add_right_cancel' t hjab
      rw [Nat.mod_eq_of_lt hja, Nat.mod_eq_of_lt hjb] at h5
      exact hne h5

theorem pairMatch_comm (a b : String) : pairMatch a b = pairMatch b a := by
  funext x
  simp only [pairMatch]
  exact decide_eq_decide.2 (by tauto)

/-- After `t` rotations the tail element of index `j` sits at slot
`(j + t) % m + 1` of the working array. -/
theorem getD_stateAt_slot (f : String) (rest : List String) (t j : Nat)
    (hj : j < rest.length) :
    (stateAt f rest t).getD ((j + t) % rest.length + 1) "" = rest.getD j "" := by
  have hm0' : 0 < rest.length := by omega
  have hsb : (j + t) % rest.length < rest.length := Nat.mod_lt _ hm0'
  rw [getD_stateAt f rest t ((j + t) % rest.length + 1) (by omega) (by omega)]
  congr 1
  rw [Nat.add_sub_cancel, Nat.mod_add_mod]
  have h1 : (rest.length - 1) * t = rest.length * t - t := by
    rw [Nat.sub_one_mul]
  have h2 : t ≤ rest.length * t := Nat.le_mul_of_pos_left t hm0'
  have e2 : j + t + (rest.length - 1) * t = j + rest.length * t := by omega
  rw [e2, Nat.add_mul_mod_self_left, Nat.mod_eq_of_lt hj]

theorem countP_pair_head (f : String) (rest : List String)
    (hnd : (f :: rest).Nodup) (hm : rest.length % 2 = 1)
    {b : String} (hbmem : b ∈ rest) (hf : f ≠ BYE) (hb : b ≠ BYE)
    (hfb : f ≠ b) :
    (genRounds (rest.length + 1) 1 rest.length (f :: rest)).countP
      (pairMatch f b) = 1 := by
  have hm0' : 0 < rest.length := by omega
  have hrest : rest ≠ [] := List.length_pos.1 hm0'
  obtain ⟨jb, hjb, hgb⟩ := List.mem_iff_getElem.1 hbmem
  rw [← stateAt_zero f rest,
    countP_genRounds (pairMatch f b) f hrest (rest.length + 1) rest.length 1 0]
  obtain ⟨t0, ht0, ht0eq, ht0uniq⟩ := shift_mod_unique hm0' jb hjb
  have hpoint : ∀ t ∈ List.range rest.length,
      (roundRows (rest.length + 1) (1 + t) (stateAt f rest (0 + t))).countP
        (pairMatch f b) =
      (fun t => if (jb + t) % rest.length = rest.length - 1 then 1 else 0) t := by
    intro t htmem
    have hsb : (jb + t) % rest.length < rest.length := Nat.mod_lt _ hm0'
    have hvb : (stateAt f rest t).getD ((jb + t) % rest.length + 1) "" = b := by
      rw [getD_stateAt_slot f rest t jb hjb, List.getD_eq_getElem?_getD,
        List.getElem?_eq_getElem hjb]
      simpa using hgb
    have happ := countP_roundRows_pair
      (stateAt f rest t)
      (by rw [length_stateAt]; omega)
      (by rw [length_stateAt]; omega)
      (nodup_stateAt t hnd)
      hf hb hfb
      0 ((jb + t) % rest.length + 1)
      (by rw [length_stateAt]; omega)
      (by rw [length_stateAt]; omega)
      (getD_stateAt_zero f rest t)
      hvb
      (1 + t)
    rw [length_stateAt] at happ
    rw [Nat.zero_add, happ]
    refine if_congr ?_ rfl rfl
    omega
  rw [List.map_congr_left hpoint]
  exact sum_ite_range_eq_one _ ht0 ht0eq ht0uniq

theorem countP_pair_rest (f : String) (rest : List String)
    (hnd : (f :: rest).Nodup) (hm : rest.length % 2 = 1)
    {a b : String} (hma : a ∈ rest) (hmb : b ∈ rest)
    (ha : a ≠ BYE) (hb : b ≠ BYE) (hab : a ≠ b) :
    (genRounds (rest.length + 1) 1 rest.length (f :: rest)).countP
      (pairMatch a b) = 1 := by
  have hm0' : 0 < rest.length := by omega
  have hrest : rest ≠ [] := List.length_pos.1 hm0'
  obtain ⟨ja, hja, hgja⟩ := List.mem_iff_getElem.1 hma
  obtain ⟨jb, hjb, hgjb⟩ := List.mem_iff_getElem.1 hmb
  have hjab : ja ≠ jb := by
    intro he
    apply hab
    rw [← hgja, ← hgjb]
    subst he
    rfl
  have hm3 : 3 ≤ rest.length := by omega
  rw [← stateAt_zero f rest,
    countP_genRounds (pairMatch a b) f hrest (rest.length + 1) rest.length 1 0]
  have hpoint : ∀ t ∈ List.range rest.length,
      (roundRows (rest.length + 1) (1 + t) (stateAt f rest (0 + t))).countP
        (pairMatch a b) =
      (fun t => if (2 * t) % rest.length =
          (2 * rest.length - 2 - ja - jb) % rest.length then 1 else 0) t := by
    intro t htmem
    have hsa : (ja + t) % rest.length < rest.length := Nat.mod_lt _ hm0'
    have hsb : (jb + t) % rest.length < rest.length := Nat.mod_lt _ hm0'
    have hva : (stateAt f rest t).getD ((ja + t) % rest.length + 1) "" = a := by
      rw [getD_stateAt_slot f rest t ja hja, List.getD_eq_getElem?_getD,
        List.getElem?_eq_getElem hja]
      simpa using hgja
    have hvb : (stateAt f rest t).getD ((jb + t) % rest.length + 1) "" = b := by
      rw [getD_stateAt_slot f rest t jb hjb, List.getD_eq_getElem?_getD,
        List.getElem?_eq_getElem hjb]
      simpa using hgjb
    have happ := countP_roundRows_pair
      (stateAt f rest t)
      (by rw [length_stateAt]; omega)
      (by rw [length_stateAt]; omega)
      (nodup_stateAt t hnd)
      ha hb hab
      ((ja + t) % rest.length + 1) ((jb + t) % rest.length + 1)
      (by rw [length_stateAt]; omega)
      (by rw [length_stateAt]; omega)
      hva hvb (1 + t)
    rw [length_stateAt] at happ
    rw [Nat.zero_add, happ]
    refine if_congr ?_ rfl rfl
    rw [← slots_sum_iff hm3 hja hjb hjab]
    omega
  rw [List.map_congr_left hpoint]
  obtain ⟨t0, ht0, ht0eq, ht0uniq⟩ :=
    two_mul_mod_unique hm (2 * rest.length - 2 - ja - jb)
  exact sum_ite_range_eq_one _ ht0 ht0eq ht0uniq

/-- Every unordered pair of distinct non-bye entries of the working list is
paired in exactly one emitted fixture of the single-leg schedule. -/
theorem countP_pair_genRounds (f : String) (rest : List String)
    (hnd : (f :: rest).Nodup) (hm : rest.length % 2 = 1)
    {a b : String} (ha : a ≠ BYE) (hb : b ≠ BYE) (hab : a ≠ b)
    (hma : a ∈ f :: rest) (hmb : b ∈ f :: rest) :
    (genRounds (rest.length + 1) 1 rest.length (f :: rest)).countP
      (pairMatch a b) = 1 := by
  rcases List.mem_cons.1 hma with rfl | hma2
  · rcases List.mem_cons.1 hmb with rfl | hmb2
    · exact absurd rfl hab
    · exact countP_pair_head a rest hnd hm hmb2 ha hb hab
  · rcases List.mem_cons.1 hmb with rfl | hmb2
    · rw [pairMatch_comm]
      exact countP_pair_head b rest hnd hm hma2 hb ha (Ne.symm hab)
    · exact countP_pair_rest f rest hnd hm hma2 hmb2 ha hb hab

theorem mem_roundRows {n r : Nat} {arr : List String} {x : SchedRow}
    (hx : x ∈ roundRows n r arr) :
    ∃ i, i < n / 2 ∧ arr.getD i "" ≠ BYE ∧ arr.getD (n - 1 - i) "" ≠ BYE ∧
      x.round = r ∧
      ((x.home_team_id = arr.getD i "" ∧ x.away_team_id = arr.getD (n - 1 - i) "") ∨
       (x.home_team_id = arr.getD (n - 1 - i) "" ∧ x.away_team_id = arr.getD i "")) := by
  rw [roundRows] at hx
  obtain ⟨i, hi, hg⟩ := List.mem_filterMap.1 hx
  refine ⟨i, List.mem_range.1 hi, ?_⟩
  dsimp only at hg
  by_cases hbye : arr.getD i "" = BYE ∨ arr.getD (n - 1 - i) "" = BYE
  · rw [if_pos hbye] at hg
    cases hg
  · rw [if_neg hbye] at hg
    push_neg at hbye
    by_cases hr : r % 2 = 1
    · rw [if_pos hr] at hg
      obtain rfl : x = ⟨r, arr.getD i "", arr.getD (n - 1 - i) ""⟩ :=
        (Option.some.inj hg).symm
      exact ⟨hbye.1, hbye.2, rfl, Or.inl ⟨rfl, rfl⟩⟩
    · rw [if_neg hr] at hg
      obtain rfl : x = ⟨r, arr.getD (n - 1 - i) "", arr.getD i ""⟩ :=
        (Option.some.inj hg).symm
      exact ⟨hbye.1, hbye.2, rfl, Or.inr ⟨rfl, rfl⟩⟩

theorem getD_state_eq (f : String) (rest : List String) (k i : Nat)
    (hi : i < (stateAt f rest k).length) :
    (stateAt f rest k).getD i "" = (stateAt f rest k).get ⟨i, hi⟩ := by
  rw [List.getD_eq_getElem?_getD, List.getElem?_eq_getElem hi]
  rfl

theorem getD_state_mem (f : String) (rest : List String) (k i : Nat)
    (hi : i < rest.length + 1) :
    (stateAt f rest k).getD i "" ∈ f :: rest := by
  have hi2 : i < (stateAt f rest k).length := by rw [length_stateAt]; omega
  rw [getD_state_eq f rest k i hi2]
  exact (stateAt_perm f rest k).mem_iff.1 (List.get_mem _ _ hi2)

theorem getD_state_ne (f : String) {rest : List String}
    (hnd : (f :: rest).Nodup) (k : Nat) {i j : Nat}
    (hi : i < rest.length + 1) (hj : j < rest.length + 1) (hij : i ≠ j) :
    (stateAt f rest k).getD i "" ≠ (stateAt f rest k).getD j "" := by
  have hi2 : i < (stateAt f rest k).length := by rw [length_stateAt]; omega
  have hj2 : j < (stateAt f rest k).length := by rw [length_stateAt]; omega
  rw [getD_state_eq f rest k i hi2, getD_state_eq f rest k j hj2]
  intro he
  exact hij ((nodup_stateAt k hnd).getElem_inj_iff.1 he)

/-- Structural facts about every emitted fixture: no bye side, both sides
are real entries of the working list, the two sides differ, and the round
number lies in the emitted range. -/
theorem genRounds_mem_facts (f : String) {rest : List String}
    (hrest : rest ≠ []) (hnd : (f :: rest).Nodup) :
    ∀ (j r k : Nat), ∀ x ∈ genRounds (rest.length + 1) r j (stateAt f rest k),
      x.home_team_id ≠ BYE ∧ x.away_team_id ≠ BYE ∧
      x.home_team_id ∈ f :: rest ∧ x.away_team_id ∈ f :: rest ∧
      x.home_team_id ≠ x.away_team_id ∧ r ≤ x.round ∧ x.round < r + j
  | 0, r, k => by
    intro x hx
    rw [genRounds] at hx
    cases hx
  | j + 1, r, k => by
    intro x hx
    rw [genRounds, rotateOnce_stateAt f hrest] at hx
    rcases List.mem_append.1 hx with hx1 | hx2
    · obtain ⟨i, hi, hbye1, hbye2, hround, hor⟩ := mem_roundRows hx1
      have hn2 : 2 ≤ rest.length + 1 := by
        have : 0 < rest.length := List.length_pos.2 hrest
        omega
      have hilt : i < rest.length + 1 := by omega
      have hjlt : rest.length + 1 - 1 - i < rest.length + 1 := by omega
      have hij : i ≠ rest.length + 1 - 1 - i := by omega
      have hne := getD_state_ne f hnd k hilt hjlt hij
      have hmem1 := getD_state_mem f rest k i hilt
      have hmem2 := getD_state_mem f rest k (rest.length + 1 - 1 - i) hjlt
      rcases hor with ⟨hh, ha⟩ | ⟨hh, ha⟩
      · exact ⟨hh ▸ hbye1, ha ▸ hbye2, hh ▸ hmem1, ha ▸ hmem2,
          by rw [hh, ha]; exact hne, by omega, by omega⟩
      · exact ⟨hh ▸ hbye2, ha ▸ hbye1, hh ▸ hmem2, ha ▸ hmem1,
          by rw [hh, ha]; exact hne.symm, by omega, by omega⟩
    · obtain ⟨h1, h2, h3, h4, h5, h6, h7⟩ :=
        genRounds_mem_facts f hrest hnd j (r + 1) (k + 1) x hx2
      exact ⟨h1, h2, h3, h4, h5, by omega, by omega⟩

theorem mem_genRounds_of (n : Nat) (f : String) {rest : List String}
    (hrest : rest ≠ []) :
    ∀ (j r k t : Nat), t < j →
      ∀ x ∈ roundRows n (r + t) (stateAt f rest (k + t)),
        x ∈ genRounds n r j (stateAt f rest k)
  | 0, r, k, t => by omega
  | j + 1, r, k, 0 => by
    intro _ x hx
    rw [genRounds]
    exact List.mem_append_left _ (by simpa using hx)
  | j + 1, r, k, t + 1 => by
    intro ht x hx
    rw [genRounds, rotateOnce_stateAt f hrest]
    refine List.mem_append_right _ ?_
    refine mem_genRounds_of n f hrest j (r + 1) (k + 1) t (by omega) x ?_
    have e1 : r + 1 + t = r + (t + 1) := by omega
    have e2 : k + 1 + t = k + (t + 1) := by omega
    rw [e1, e2]
    exact hx

/-- Every round emits at least one fixture (at most one slot pairing can
involve the bye marker, and there are enough slots). -/
theorem exists_mem_roundRows (f : String) {rest : List String}
    (hnd : (f :: rest).Nodup) (k r : Nat)
    (hbye : BYE ∉ (f :: rest) ∨ 3 ≤ rest.length) (hm0 : 0 < rest.length) :
    ∃ x ∈ roundRows (rest.length + 1) r (stateAt f rest k), x.round = r := by
  have hhalf : 0 < (rest.length + 1) / 2 := by omega
  have hemit : ∀ i, i < (rest.length + 1) / 2 →
      (stateAt f rest k).getD i "" ≠ BYE →
      (stateAt f rest k).getD (rest.length + 1 - 1 - i) "" ≠ BYE →
      ∃ x ∈ roundRows (rest.length + 1) r (stateAt f rest k), x.round = r := by
    intro i hi h1 h2
    by_cases hr : r % 2 = 1
    · refine ⟨⟨r, (stateAt f rest k).getD i "",
        (stateAt f rest k).getD (rest.length + 1 - 1 - i) ""⟩, ?_, rfl⟩
      rw [roundRows]
      refine List.mem_filterMap.2 ⟨i, List.mem_range.2 hi, ?_⟩
      dsimp only
      rw [if_neg (by tauto), if_pos hr]
    · refine ⟨⟨r, (stateAt f rest k).getD (rest.length + 1 - 1 - i) "",
        (stateAt f rest k).getD i ""⟩, ?_, rfl⟩
      rw [roundRows]
      refine List.mem_filterMap.2 ⟨i, List.mem_range.2 hi, ?_⟩
      dsimp only
      rw [if_neg (by tauto), if_neg hr]
  rcases hbye with hnb | hm3
  · refine hemit 0 hhalf ?_ ?_
    · intro hc
      exact hnb (hc ▸ getD_state_mem f rest k 0 (by omega))
    · intro hc
      exact hnb (hc ▸ getD_state_mem f rest k (rest.length + 1 - 1 - 0) (by omega))
  · by_cases h0 : (stateAt f rest k).getD 0 "" ≠ BYE ∧
        (stateAt f rest k).getD (rest.length + 1 - 1 - 0) "" ≠ BYE
    · exact hemit 0 hhalf h0.1 h0.2
    · push_neg at h0
      have hone : (stateAt f rest k).getD 1 "" ≠ BYE ∧
          (stateAt f rest k).getD (rest.length + 1 - 1 - 1) "" ≠ BYE := by
        constructor
        · intro hc
          by_cases hz : (stateAt f rest k).getD 0 "" = BYE
          · exact getD_state_ne f hnd k (i := 0) (j := 1) (by omega) (by omega)
              (by omega) (hz.trans hc.symm)
          · have hm := h0 hz
            exact getD_state_ne f hnd k
              (i := rest.length + 1 - 1 - 0) (j := 1) (by omega) (by omega)
              (by omega) (hm.trans hc.symm)
        · intro hc
          by_cases hz : (stateAt f rest k).getD 0 "" = BYE
          · exact getD_state_ne f hnd k (i := 0)
              (j := rest.length + 1 - 1 - 1) (by omega) (by omega)
              (by omega) (hz.trans hc.symm)
          · have hm := h0 hz
            exact getD_state_ne f hnd k
              (i := rest.length + 1 - 1 - 0) (j := rest.length + 1 - 1 - 1)
              (by omega) (by omega) (by omega) (hm.trans hc.symm)
      exact hemit 1 (by omega) hone.1 hone.2

theorem exists_round_genRounds (f : String) {rest : List String}
    (hnd : (f :: rest).Nodup) (hm0 : 0 < rest.length)
    (hbye : BYE ∉ (f :: rest) ∨ 3 ≤ rest.length) :
    ∀ t < rest.length,
      ∃ x ∈ genRounds (rest.length + 1) 1 rest.length (f :: rest),
        x.round = 1 + t := by
  intro t ht
  have hrest : rest ≠ [] := List.length_pos.1 hm0
  obtain ⟨x, hx, hround⟩ :=
    exists_mem_roundRows f hnd t (1 + t) hbye hm0
  refine ⟨x, ?_, hround⟩
  rw [← stateAt_zero f rest]
  refine mem_genRounds_of (rest.length + 1) f hrest rest.length 1 0 t ht x ?_
  simpa using hx

/-- Decomposition of the bye-padded working list. -/
theorem padded_decomp {teams : List String} (h2 : 2 ≤ teams.length)
    (hnd : teams.Nodup) (hbye : BYE ∉ teams) :
    ∃ f rest,
      (if teams.length % 2 = 1 then teams ++ [BYE] else teams) = f :: rest ∧
      (f :: rest).Nodup ∧ rest.length % 2 = 1 ∧
      (BYE ∉ (f :: rest) ∨ 3 ≤ rest.length) ∧
      (∀ y ∈ teams, y ∈ f :: rest) ∧
      (∀ y ∈ f :: rest, y ≠ BYE → y ∈ teams) ∧
      rest.length + 1 =
        (if teams.length % 2 = 1 then teams.length + 1 else teams.length) := by
  rcases teams with _ | ⟨f, ts⟩
  · simp at h2
  · simp only [List.length_cons] at h2 ⊢
    by_cases hodd : (ts.length + 1) % 2 = 1
    · rw [if_pos hodd, if_pos hodd]
      refine ⟨f, ts ++ [BYE], by rw [List.cons_append], ?_, ?_, ?_, ?_, ?_, ?_⟩
      · rw [← List.cons_append, List.nodup_append]
        refine ⟨hnd, List.nodup_singleton _, ?_⟩
        intro x hx hx2
        simp only [List.mem_singleton] at hx2
        exact hbye (hx2 ▸ hx)
      · simp only [List.length_append, List.length_singleton]
        omega
      · right
        simp only [List.length_append, List.length_singleton]
        omega
      · intro y hy
        rw [← List.cons_append]
        exact List.mem_append_left _ hy
      · intro y hy hyb
        rw [← List.cons_append] at hy
        rcases List.mem_append.1 hy with h | h
        · exact h
        · simp only [List.mem_singleton] at h
          exact absurd h hyb
      · simp only [List.length_append, List.length_singleton]
    · rw [if_neg hodd, if_neg hodd]
      refine ⟨f, ts, rfl, hnd, by omega, Or.inl hbye, fun y hy => hy,
        fun y hy _ => hy, rfl⟩

/-- C1: for an ordered list of at least two distinct team ids (none equal
to the bye marker) and `double = false`, the generator succeeds; the
emitted rounds are exactly `1 .. N' - 1` where `N'` is the bye-padded
size; every unordered pair of real teams appears in exactly one emitted
fixture; and no fixture mentions the bye marker (bye pairings are
dropped).  The pairing of position `i` with position `N' - 1 - i` and the
fixed-head one-step rotation (last element becoming second) are embedded
definitionally in `roundRows`, `rotateOnce` and `genRounds` above. -/
theorem roundRobin_complete (teams : List String)
    (h2 : 2 ≤ teams.length) (hnd : teams.Nodup) (hbye : BYE ∉ teams) :
    generateSchedule teams false = Except.ok (buildRows teams) ∧
    (∀ r : Nat, (∃ x ∈ buildRows teams, x.round = r) ↔
      (1 ≤ r ∧ r ≤
        (if teams.length % 2 = 1 then teams.length + 1 else teams.length) - 1)) ∧
    (∀ a ∈ teams, ∀ b ∈ teams, a ≠ b →
      (buildRows teams).countP (pairMatch a b) = 1) ∧
    (∀ x ∈ buildRows teams, x.home_team_id ≠ BYE ∧ x.away_team_id ≠ BYE ∧
      x.home_team_id ∈ teams ∧ x.away_team_id ∈ teams ∧
      x.home_team_id ≠ x.away_team_id) := by
  obtain ⟨f, rest, hdec, hnd2, hm, hbye2, hfwd, hrev, hlen⟩ :=
    padded_decomp h2 hnd hbye
  have hm0 : 0 < rest.length := by omega
  have hrest : rest ≠ [] := List.length_pos.1 hm0
  have hbuild : buildRows teams =
      genRounds (rest.length + 1) 1 rest.length (f :: rest) := by
    rw [buildRows, hdec]
    simp only [List.length_cons, Nat.add_sub_cancel]
  refine ⟨?_, ?_, ?_, ?_⟩
  · rw [generateSchedule, if_neg (by omega)]
    rfl
  · intro r
    rw [hbuild]
    constructor
    · rintro ⟨x, hx, hr⟩
      rw [← stateAt_zero f rest] at hx
      have hfacts := genRounds_mem_facts f hrest hnd2 rest.length 1 0 x hx
      omega
    · rintro ⟨hr1, hr2⟩
      obtain ⟨x, hx, hround⟩ :=
        exists_round_genRounds f hnd2 hm0 hbye2 (r - 1) (by omega)
      exact ⟨x, hx, by omega⟩
  · intro a hma b hmb hab
    rw [hbuild]
    exact countP_pair_genRounds f rest hnd2 hm
      (fun hc => hbye (hc ▸ hma)) (fun hc => hbye (hc ▸ hmb)) hab
      (hfwd a hma) (hfwd b hmb)
  · intro x hx
    rw [hbuild, ← stateAt_zero f rest] at hx
    obtain ⟨hh1, hh2, hh3, hh4, hh5, _, _⟩ :=
      genRounds_mem_facts f hrest hnd2 rest.length 1 0 x hx
    exact ⟨hh1, hh2, hrev _ hh3 hh1, hrev _ hh4 hh2, hh5⟩

theorem roundRobin_complete_witness :
    generateSchedule ["a", "b", "c"] false =
      Except.ok (buildRows ["a", "b", "c"]) ∧
    (buildRows ["a", "b", "c"]).countP (pairMatch "a" "b") = 1 := by
  have h := roundRobin_complete ["a", "b", "c"] (by decide) (by decide) (by decide)
  exact ⟨h.1, h.2.2.1 "a" (by decide) "b" (by decide) (by decide)⟩

/-- Under the usual validity hypotheses every emitted fixture occurs once
in the single-leg schedule. -/
theorem count_buildRows_eq_one {teams : List String}
    (h2 : 2 ≤ teams.length) (hnd : teams.Nodup) (hbye : BYE ∉ teams)
    {x : SchedRow} (hx : x ∈ buildRows teams) :
    (buildRows teams).count x = 1 := by
  obtain ⟨f, rest, hdec, hnd2, hm, hbye2, hfwd, hrev, hlen⟩ :=
    padded_decomp h2 hnd hbye
  have hm0 : 0 < rest.length := by omega
  have hrest : rest ≠ [] := List.length_pos.1 hm0
  have hbuild : buildRows teams =
      genRounds (rest.length + 1) 1 rest.length (f :: rest) := by
    rw [buildRows, hdec]
    simp only [List.length_cons, Nat.add_sub_cancel]
  have hx0 := hx
  rw [hbuild, ← stateAt_zero f rest] at hx0
  obtain ⟨hh1, hh2, hh3, hh4, hh5, _, _⟩ :=
    genRounds_mem_facts f hrest hnd2 rest.length 1 0 x hx0
  have hcount1 : (buildRows teams).countP
      (pairMatch x.home_team_id x.away_team_id) = 1 := by
    rw [hbuild]
    exact countP_pair_genRounds f rest hnd2 hm hh1 hh2 hh5 hh3 hh4
  have hle : (buildRows teams).count x ≤ 1 := by
    rw [List.count_eq_countP]
    calc (buildRows teams).countP (fun y => y == x)
        ≤ (buildRows teams).countP (pairMatch x.home_team_id x.away_team_id) := by
          apply List.countP_mono_left
          intro y _ hyx
          have hyx2 : y = x := by simpa using hyx
          subst hyx2
          simp [pairMatch]
      _ = 1 := hcount1
  have hge : 0 < (buildRows teams).count x := List.count_pos_iff.2 hx
  omega

/-- Round-number offset of the mirrored second leg (`rounds` in the
source), i.e. `N' - 1`. -/
def legOffset (teams0 : List String) : Nat :=
  (if teams0.length % 2 = 1 then teams0.length + 1 else teams0.length) - 1

/-- C9: with `double = true` the generator appends a mirrored second leg
with round numbers offset by `N' - 1`: each first-leg fixture
`(r, home, away)` has exactly one counterpart `(r + off, away, home)` in
the second leg, and every second-leg fixture arises from exactly one
first-leg fixture this way. -/
theorem double_leg_mirror (teams : List String)
    (h2 : 2 ≤ teams.length) (hnd : teams.Nodup) (hbye : BYE ∉ teams) :
    generateSchedule teams true = Except.ok (buildRows teams ++
      (buildRows teams).map (mirrorRow (legOffset teams))) ∧
    (∀ x ∈ buildRows teams,
      ((buildRows teams).map (mirrorRow (legOffset teams))).count
        (mirrorRow (legOffset teams) x) = 1) ∧
    (∀ y ∈ (buildRows teams).map (mirrorRow (legOffset teams)),
      (buildRows teams).count
        ⟨y.round - legOffset teams, y.away_team_id, y.home_team_id⟩ = 1) := by
  have hinj : Function.Injective (mirrorRow (legOffset teams)) := by
    intro x1 x2 he
    rcases x1 with ⟨r1, hh1, aa1⟩
    rcases x2 with ⟨r2, hh2, aa2⟩
    simp only [mirrorRow, SchedRow.mk.injEq] at he
    obtain ⟨e1, e2, e3⟩ := he
    simp only [SchedRow.mk.injEq]
    exact ⟨by omega, e3, e2⟩
  refine ⟨?_, ?_, ?_⟩
  · rw [generateSchedule, if_neg (by omega)]
    rfl
  · intro x hx
    rw [List.count_map_of_injective _ _ hinj]
    exact count_buildRows_eq_one h2 hnd hbye hx
  · intro y hy
    obtain ⟨x, hx, rfl⟩ := List.mem_map.1 hy
    have e : (⟨(mirrorRow (legOffset teams) x).round - legOffset teams,
        (mirrorRow (legOffset teams) x).away_team_id,
        (mirrorRow (legOffset teams) x).home_team_id⟩ : SchedRow) = x := by
      rcases x with ⟨r, hh, aa⟩
      simp [mirrorRow]
    rw [e]
    exact count_buildRows_eq_one h2 hnd hbye hx

theorem double_leg_mirror_witness :
    generateSchedule ["a", "b"] true = Except.ok (buildRows ["a", "b"] ++
      (buildRows ["a", "b"]).map (mirrorRow (legOffset ["a", "b"]))) ∧
    ((buildRows ["a", "b"]).map (mirrorRow (legOffset ["a", "b"]))).count
      (mirrorRow (legOffset ["a", "b"]) ⟨1, "a", "b"⟩) = 1 := by
  have h := double_leg_mirror ["a", "b"] (by decide) (by decide) (by decide)
  exact ⟨h.1, h.2.1 ⟨1, "a", "b"⟩ (by decide)⟩

/-! ### StandingsAggregator (`standings` memo, dashboard/page.tsx 1758-1820)

The JavaScript accumulates into a `Map<string, StandingRow>` seeded from
the deduplicated tournament team-id set and mutates the looked-up row
objects in place; this is embedded as an association list in insertion
order with keyed functional updates (the seeded key set is duplicate-free,
so the keyed update below coincides with the `Map` mutation). -/

structure StandingRow where
  team_id : String
  team_name : String
  played : Int
  wins : Int
  draws : Int
  losses : Int
  gf : Int
  ga : Int
  gd : Int
  pts : Int
deriving DecidableEq, Repr

structure MatchRow where
  home_team_id : Option String
  away_team_id : Option String
  player1_score : Option Int
  player2_score : Option Int
  played_at : Option String
deriving DecidableEq, Repr

/-- A `tournament_teams` row (only the team id is consumed here). -/
structure TTRow where
  team_id : String
deriving DecidableEq, Repr

/-- JavaScript truthiness of a nullable string (`null` and `""` falsy). -/
def jsTruthy : Option String → Bool
  | none => false
  | some s => decide (s ≠ "")

/-- `isPlayed(m) = Boolean(m.played_at)`. -/
def isPlayed (m : MatchRow) : Bool := jsTruthy m.played_at

def zeroRow (tid name : String) : StandingRow :=
  ⟨tid, name, 0, 0, 0, 0, 0, 0, 0, 0⟩

/-- The seeding loop over `tourTeamIds` (a `Set`, so deduplicated in first
occurrence order); the display name falls back to the id. -/
def seedRows (pool : List TTRow) (teamName : String → Option String) :
    List StandingRow :=
  (setDedup (pool.map (fun x => x.team_id))).map
    (fun tid => zeroRow tid ((teamName tid).getD tid))

/-- The home-side mutations of one played match. -/
def homeUpd (s1 s2 : Int) (r : StandingRow) : StandingRow :=
  { r with
    played := r.played + 1
    gf := r.gf + s1
    ga := r.ga + s2
    wins := r.wins + (if s1 > s2 then 1 else 0)
    losses := r.losses + (if s1 < s2 then 1 else 0)
    draws := r.draws + (if s1 = s2 then 1 else 0)
    pts := r.pts + (if s1 > s2 then 3 else if s1 < s2 then 0 else 1) }

/-- The away-side mutations of one played match. -/
def awayUpd (s1 s2 : Int) (r : StandingRow) : StandingRow :=
  { r with
    played := r.played + 1
    gf := r.gf + s2
    ga := r.ga + s1
    wins := r.wins + (if s2 > s1 then 1 else 0)
    losses := r.losses + (if s1 > s2 then 1 else 0)
    draws := r.draws + (if s1 = s2 then 1 else 0)
    pts := r.pts + (if s2 > s1 then 3 else if s2 < s1 then 0 else 1) }

/-- Keyed update of the single matching map entry. -/
def updateRow (table : List StandingRow) (tid : String)
    (upd : StandingRow → StandingRow) : List StandingRow :=
  table.map (fun r => if r.team_id = tid then upd r else r)

/-- Body of the `for (const m of matches)` loop: skip on missing/falsy
team ids, unplayed (`played_at` falsy), missing scores, or ids absent from
the seeded map; otherwise credit both sides. -/
def applyMatch (table : List StandingRow) (m : MatchRow) : List StandingRow :=
  match m.home_team_id, m.away_team_id with
  | some h, some a =>
    if h = "" ∨ a = "" then table
    else if isPlayed m then
      match m.player1_score, m.player2_score with
      | some s1, some s2 =>
        if h ∈ table.map (fun r => r.team_id) ∧
            a ∈ table.map (fun r => r.team_id) then
          updateRow (updateRow table h (homeUpd s1 s2)) a (awayUpd s1 s2)
        else table
      | _, _ => table
    else table
  | _, _ => table

def standingsTable (pool : List TTRow) (teamName : String → Option String)
    (ms : List MatchRow) : List StandingRow :=
  ms.foldl applyMatch (seedRows pool teamName)

/-- `gd` is filled in just before sorting: `{ ...r, gd: r.gf - r.ga }`. -/
def withGd (r : StandingRow) : StandingRow := { r with gd := r.gf - r.ga }

/-- The comparator passed to `list.sort`. -/
def cmpRows (a b : StandingRow) : Int :=
  if b.pts ≠ a.pts then b.pts - a.pts
  else if b.gd ≠ a.gd then b.gd - a.gd
  else b.gf - a.gf

/-- `Array.prototype.sort` is stable and orders `a` before `b` whenever
`cmpRows a b ≤ 0`; embedded as a stable insertion sort. -/
def sortRows (l : List StandingRow) : List StandingRow :=
  List.insertionSort (fun a b => cmpRows a b ≤ 0) l

def standings (pool : List TTRow) (teamName : String → Option String)
    (ms : List MatchRow) : List StandingRow :=
  sortRows ((standingsTable pool teamName ms).map withGd)

/-- `map.get(t)` in the match loop. -/
def findRow (table : List StandingRow) (tid : String) : Option StandingRow :=
  table.find? (fun r => decide (r.team_id = tid))

theorem homeUpd_team_id (s1 s2 : Int) (r : StandingRow) :
    (homeUpd s1 s2 r).team_id = r.team_id := rfl

theorem awayUpd_team_id (s1 s2 : Int) (r : StandingRow) :
    (awayUpd s1 s2 r).team_id = r.team_id := rfl

theorem updateRow_ids (table : List StandingRow) (tid : String)
    (upd : StandingRow → StandingRow)
    (hupd : ∀ r, (upd r).team_id = r.team_id) :
    (updateRow table tid upd).map (fun r => r.team_id) =
      table.map (fun r => r.team_id) := by
  rw [updateRow, List.map_map]
  apply List.map_congr_left
  intro r _
  simp only [Function.comp_apply]
  by_cases hr : r.team_id = tid
  · rw [if_pos hr, hupd]
  · rw [if_neg hr]

theorem applyMatch_ids (table : List StandingRow) (m : MatchRow) :
    (applyMatch table m).map (fun r => r.team_id) =
      table.map (fun r => r.team_id) := by
  rcases m with ⟨oh, oa, os1, os2, opa⟩
  rcases oh with _ | h
  · rfl
  rcases oa with _ | a
  · rfl
  rw [applyMatch]
  dsimp only
  by_cases hempty : h = "" ∨ a = ""
  · rw [if_pos hempty]
  rw [if_neg hempty]
  by_cases hplayed : isPlayed ⟨some h, some a, os1, os2, opa⟩
  · rw [if_pos hplayed]
    rcases os1 with _ | s1
    · rfl
    rcases os2 with _ | s2
    · rfl
    dsimp only
    by_cases hmem : h ∈ table.map (fun r => r.team_id) ∧
        a ∈ table.map (fun r => r.team_id)
    · rw [if_pos hmem]
      rw [updateRow_ids _ _ _ (awayUpd_team_id _ _),
        updateRow_ids _ _ _ (homeUpd_team_id _ _)]
    · rw [if_neg hmem]
  · rw [if_neg hplayed]

theorem seedRows_ids (pool : List TTRow) (teamName : String → Option String) :
    (seedRows pool teamName).map (fun r => r.team_id) =
      setDedup (pool.map (fun x => x.team_id)) := by
  rw [seedRows, List.map_map]
  have e : ((fun r : StandingRow => r.team_id) ∘
      (fun tid => zeroRow tid ((teamName tid).getD tid))) = fun tid => tid := rfl
  rw [e, List.map_id']

theorem foldl_applyMatch_ids (ms : List MatchRow) :
    ∀ T : List StandingRow,
      (ms.foldl applyMatch T).map (fun r => r.team_id) =
        T.map (fun r => r.team_id) := by
  induction ms with
  | nil => intro T; rfl
  | cons m ms ih =>
    intro T
    rw [List.foldl_cons, ih (applyMatch T m), applyMatch_ids]

/-- The key set of the standings table is the deduplicated pool in pool
order, whatever the match list. -/
theorem standingsTable_ids (pool : List TTRow)
    (teamName : String → Option String) (ms : List MatchRow) :
    (standingsTable pool teamName ms).map (fun r => r.team_id) =
      setDedup (pool.map (fun x => x.team_id)) := by
  rw [standingsTable, foldl_applyMatch_ids, seedRows_ids]

theorem findRow_of_mem {table : List StandingRow} {t : String}
    (h : t ∈ table.map (fun r => r.team_id)) :
    ∃ r, findRow table t = some r ∧ r.team_id = t := by
  induction table with
  | nil => simp at h
  | cons x xs ih =>
    by_cases hx : x.team_id = t
    · refine ⟨x, ?_, hx⟩
      rw [findRow, List.find?_cons_of_pos _ (by simpa using hx)]
    · simp only [List.map_cons, List.mem_cons] at h
      rcases h with h | h
      · exact absurd h.symm hx
      · obtain ⟨r, hr1, hr2⟩ := ih h
        refine ⟨r, ?_, hr2⟩
        rw [findRow, List.find?_cons_of_neg _ (by simpa using hx)]
        exact hr1

theorem findRow_updateRow (table : List StandingRow) (tid t : String)
    (upd : StandingRow → StandingRow)
    (hupd : ∀ r, (upd r).team_id = r.team_id) :
    findRow (updateRow table tid upd) t =
      (findRow table t).map (fun r => if r.team_id = tid then upd r else r) := by
  rw [updateRow, findRow, List.find?_map, findRow]
  have e : ((fun r : StandingRow => decide (r.team_id = t)) ∘
      fun r => if r.team_id = tid then upd r else r) =
      fun r : StandingRow => decide (r.team_id = t) := by
    funext r
    simp only [Function.comp_apply]
    by_cases hr : r.team_id = tid
    · rw [if_pos hr, hupd]
    · rw [if_neg hr]
  rw [e]

/-- C2: the standings computation seeds one all-zero row per pool team and
keeps exactly that key set for any match list (teams with no played
matches still appear); for a played match between two distinct pool teams
whose ids and scores are non-null (with `played_at` set alongside the
scores, the Match invariant of the data model) it increments `played` on
both sides, adds the goals symmetrically, awards 3 points to the strictly
higher scorer and 0 to the other or 1 each on a tie, increments
wins/draws/losses accordingly and leaves every other row unchanged; and
every output row satisfies `gd = gf - ga`. -/
theorem standings_aggregation
    (pool : List TTRow) (teamName : String → Option String)
    (ms : List MatchRow) (m : MatchRow) {h a : String} {s1 s2 : Int}
    (hh : m.home_team_id = some h) (ha : m.away_team_id = some a)
    (hs1 : m.player1_score = some s1) (hs2 : m.player2_score = some s2)
    (hhne : h ≠ "") (hane : a ≠ "") (hplayed : isPlayed m = true)
    (hmemh : h ∈ pool.map (fun x => x.team_id))
    (hmema : a ∈ pool.map (fun x => x.team_id))
    (hha : h ≠ a) :
    ((standingsTable pool teamName ms).map (fun r => r.team_id) =
        setDedup (pool.map (fun x => x.team_id)) ∧
      (∀ r ∈ standingsTable pool teamName [], r.played = 0 ∧ r.wins = 0 ∧
        r.draws = 0 ∧ r.losses = 0 ∧ r.gf = 0 ∧ r.ga = 0 ∧ r.pts = 0)) ∧
    (∃ rh ra rh2 ra2,
      findRow (standingsTable pool teamName ms) h = some rh ∧
      findRow (standingsTable pool teamName ms) a = some ra ∧
      findRow (standingsTable pool teamName (ms ++ [m])) h = some rh2 ∧
      findRow (standingsTable pool teamName (ms ++ [m])) a = some ra2 ∧
      rh2.played = rh.played + 1 ∧ ra2.played = ra.played + 1 ∧
      rh2.gf = rh.gf + s1 ∧ rh2.ga = rh.ga + s2 ∧
      ra2.gf = ra.gf + s2 ∧ ra2.ga = ra.ga + s1 ∧
      (s1 > s2 → rh2.pts = rh.pts + 3 ∧ ra2.pts = ra.pts ∧
        rh2.wins = rh.wins + 1 ∧ ra2.losses = ra.losses + 1 ∧
        rh2.draws = rh.draws ∧ ra2.draws = ra.draws ∧
        rh2.losses = rh.losses ∧ ra2.wins = ra.wins) ∧
      (s1 < s2 → ra2.pts = ra.pts + 3 ∧ rh2.pts = rh.pts ∧
        ra2.wins = ra.wins + 1 ∧ rh2.losses = rh.losses + 1 ∧
        rh2.draws = rh.draws ∧ ra2.draws = ra.draws ∧
        rh2.wins = rh.wins ∧ ra2.losses = ra.losses) ∧
      (s1 = s2 → rh2.pts = rh.pts + 1 ∧ ra2.pts = ra.pts + 1 ∧
        rh2.draws = rh.draws + 1 ∧ ra2.draws = ra.draws + 1 ∧
        rh2.wins = rh.wins ∧ ra2.wins = ra.wins ∧
        rh2.losses = rh.losses ∧ ra2.losses = ra.losses) ∧
      (∀ t, t ≠ h → t ≠ a →
        findRow (standingsTable pool teamName (ms ++ [m])) t =
          findRow (standingsTable pool teamName ms) t)) ∧
    (∀ r ∈ standings pool teamName ms, r.gd = r.gf - r.ga) := by
  refine ⟨⟨standingsTable_ids pool teamName ms, ?_⟩, ?_, ?_⟩
  · intro r hr
    rw [standingsTable, List.foldl_nil, seedRows] at hr
    obtain ⟨tid, _, rfl⟩ := List.mem_map.1 hr
    exact ⟨rfl, rfl, rfl, rfl, rfl, rfl, rfl⟩
  · have hids := standingsTable_ids pool teamName ms
    have hmh : h ∈ (standingsTable pool teamName ms).map (fun r => r.team_id) := by
      rw [hids]
      exact mem_setDedup.2 hmemh
    have hma : a ∈ (standingsTable pool teamName ms).map (fun r => r.team_id) := by
      rw [hids]
      exact mem_setDedup.2 hmema
    obtain ⟨rh, hrh, hrhid⟩ := findRow_of_mem hmh
    obtain ⟨ra, hra, hraid⟩ := findRow_of_mem hma
    have hT2 : standingsTable pool teamName (ms ++ [m]) =
        updateRow (updateRow (standingsTable pool teamName ms) h (homeUpd s1 s2))
          a (awayUpd s1 s2) := by
      rw [standingsTable, List.foldl_append, List.foldl_cons, List.foldl_nil,
        ← standingsTable]
      rcases m with ⟨oh, oa, os1, os2, opa⟩
      obtain rfl : oh = some h := hh
      obtain rfl : oa = some a := ha
      obtain rfl : os1 = some s1 := hs1
      obtain rfl : os2 = some s2 := hs2
      rw [applyMatch]
      dsimp only
      rw [if_neg (fun hc => hc.elim hhne hane), if_pos hplayed]
      rw [if_pos ⟨hmh, hma⟩]
    have hfh : findRow (standingsTable pool teamName (ms ++ [m])) h =
        some (homeUpd s1 s2 rh) := by
      rw [hT2, findRow_updateRow _ _ _ _ (awayUpd_team_id s1 s2),
        findRow_updateRow _ _ _ _ (homeUpd_team_id s1 s2), hrh]
      simp only [Option.map_some']
      rw [if_pos hrhid]
      have hne2 : ¬ (homeUpd s1 s2 rh).team_id = a := by
        rw [homeUpd_team_id, hrhid]
        exact hha
      rw [if_neg hne2]
    have hfa : findRow (standingsTable pool teamName (ms ++ [m])) a =
        some (awayUpd s1 s2 ra) := by
      rw [hT2, findRow_updateRow _ _ _ _ (awayUpd_team_id s1 s2),
        findRow_updateRow _ _ _ _ (homeUpd_team_id s1 s2), hra]
      simp only [Option.map_some']
      have hne1 : ¬ ra.team_id = h := by
        rw [hraid]
        exact Ne.symm hha
      rw [if_neg hne1]
      rw [if_pos hraid]
    refine ⟨rh, ra, homeUpd s1 s2 rh, awayUpd s1 s2 ra, hrh, hra, hfh, hfa,
      rfl, rfl, rfl, rfl, rfl, rfl, ?_, ?_, ?_, ?_⟩
    · intro hgt
      simp only [homeUpd, awayUpd]
      refine ⟨?_, ?_, ?_, ?_, ?_, ?_, ?_, ?_⟩ <;> (split_ifs <;> omega)
    · intro hlt
      simp only [homeUpd, awayUpd]
      refine ⟨?_, ?_, ?_, ?_, ?_, ?_, ?_, ?_⟩ <;> (split_ifs <;> omega)
    · intro heq
      simp only [homeUpd, awayUpd]
      refine ⟨?_, ?_, ?_, ?_, ?_, ?_, ?_, ?_⟩ <;> (split_ifs <;> omega)
    · intro t hth hta
      rw [hT2, findRow_updateRow _ _ _ _ (awayUpd_team_id s1 s2),
        findRow_updateRow _ _ _ _ (homeUpd_team_id s1 s2)]
      rcases hfr : findRow (standingsTable pool teamName ms) t with _ | r
      · rfl
      · have hrid : r.team_id = t := by
          have hsome := List.find?_some hfr
          simpa using hsome
        simp only [Option.map_some']
        have hne1 : ¬ r.team_id = h := by
          rw [hrid]
          exact hth
        have hne2 : ¬ r.team_id = a := by
          rw [hrid]
          exact hta
        rw [if_neg hne1, if_neg hne2]
  · intro r hr
    rw [standings, sortRows] at hr
    have hr2 : r ∈ (standingsTable pool teamName ms).map withGd :=
      (List.perm_insertionSort _ _).subset hr
    obtain ⟨r0, _, rfl⟩ := List.mem_map.1 hr2
    rfl

theorem standings_aggregation_witness :
    (standingsTable [TTRow.mk "t1", TTRow.mk "t2"] (fun _ => none) []).map
        (fun r => r.team_id) =
      setDedup ([TTRow.mk "t1", TTRow.mk "t2"].map (fun x => x.team_id)) := by
  have hthm := standings_aggregation [TTRow.mk "t1", TTRow.mk "t2"]
    (fun _ => none) [] ⟨some "t1", some "t2", some 2, some 1, some "now"⟩
    rfl rfl rfl rfl (by decide) (by decide) (by decide) (by decide)
    (by decide) (by decide)
  exact hthm.1.1

/-- C10: any played match whose home or away id is absent from the
supplied pool is skipped entirely (the table is unchanged, so neither side
is credited), and every output row corresponds to a pool team. -/
theorem standings_pool_filter
    (pool : List TTRow) (teamName : String → Option String)
    (ms : List MatchRow) (m : MatchRow) {h a : String} {s1 s2 : Int}
    (hh : m.home_team_id = some h) (ha : m.away_team_id = some a)
    (hs1 : m.player1_score = some s1) (hs2 : m.player2_score = some s2)
    (hplayed : isPlayed m = true)
    (habsent : h ∉ pool.map (fun x => x.team_id) ∨
      a ∉ pool.map (fun x => x.team_id)) :
    standingsTable pool teamName (ms ++ [m]) =
      standingsTable pool teamName ms ∧
    (∀ r ∈ standings pool teamName ms,
      r.team_id ∈ pool.map (fun x => x.team_id)) := by
  constructor
  · rw [standingsTable, List.foldl_append, List.foldl_cons, List.foldl_nil,
      ← standingsTable]
    rcases m with ⟨oh, oa, os1, os2, opa⟩
    obtain rfl : oh = some h := hh
    obtain rfl : oa = some a := ha
    obtain rfl : os1 = some s1 := hs1
    obtain rfl : os2 = some s2 := hs2
    rw [applyMatch]
    dsimp only
    by_cases hempty : h = "" ∨ a = ""
    · rw [if_pos hempty]
    rw [if_neg hempty, if_pos hplayed]
    have hguard : ¬ (h ∈ (standingsTable pool teamName ms).map
          (fun r => r.team_id) ∧
        a ∈ (standingsTable pool teamName ms).map (fun r => r.team_id)) := by
      rw [standingsTable_ids]
      intro hc
      rcases habsent with hb | hb
      · exact hb (mem_setDedup.1 hc.1)
      · exact hb (mem_setDedup.1 hc.2)
    rw [if_neg hguard]
  · intro r hr
    rw [standings, sortRows] at hr
    have hmem : r ∈ (standingsTable pool teamName ms).map withGd :=
      (List.perm_insertionSort _ _).subset hr
    have hid : r.team_id ∈
        ((standingsTable pool teamName ms).map withGd).map
          (fun r => r.team_id) := List.mem_map_of_mem _ hmem
    rw [List.map_map] at hid
    have e : ((fun r : StandingRow => r.team_id) ∘ withGd) =
        fun r : StandingRow => r.team_id := rfl
    rw [e, standingsTable_ids] at hid
    exact mem_setDedup.1 hid

theorem standings_pool_filter_witness :
    standingsTable [TTRow.mk "t1"] (fun _ => none)
        ([] ++ [⟨some "t1", some "zz", some 1, some 0, some "now"⟩]) =
      standingsTable [TTRow.mk "t1"] (fun _ => none) [] := by
  have hthm := standings_pool_filter [TTRow.mk "t1"] (fun _ => none) []
    ⟨some "t1", some "zz", some 1, some 0, some "now"⟩
    rfl rfl rfl rfl (by decide) (Or.inr (by decide))
  exact hthm.1

theorem cmpRows_le_iff (a b : StandingRow) :
    cmpRows a b ≤ 0 ↔ (a.pts > b.pts ∨ (a.pts = b.pts ∧
      (a.gd > b.gd ∨ (a.gd = b.gd ∧ a.gf ≥ b.gf)))) := by
  rw [cmpRows]
  split_ifs with h1 h2 <;> omega

theorem sortRows_sorted (l : List StandingRow) :
    List.Pairwise (fun x y : StandingRow => x.pts > y.pts ∨ (x.pts = y.pts ∧
      (x.gd > y.gd ∨ (x.gd = y.gd ∧ x.gf ≥ y.gf)))) (sortRows l) := by
  haveI htot : IsTotal StandingRow (fun a b => cmpRows a b ≤ 0) := ⟨by
    intro a b
    rw [cmpRows_le_iff, cmpRows_le_iff]
    omega⟩
  haveI htrans : IsTrans StandingRow (fun a b => cmpRows a b ≤ 0) := ⟨by
    intro a b c hab hbc
    rw [cmpRows_le_iff] at hab hbc ⊢
    omega⟩
  have hs := List.sorted_insertionSort (fun a b => cmpRows a b ≤ 0) l
  exact hs.imp (fun hxy => (cmpRows_le_iff _ _).1 hxy)

/-- Inserting an element puts it in front of every element with the same
sort key (the comparator returns equality there), so a key-filter is
unchanged up to prepending. -/
theorem filter_orderedInsert_key {r : StandingRow → StandingRow → Prop}
    [DecidableRel r] (p : StandingRow → Bool)
    (hkey : ∀ x y, p x = true → p y = true → r x y)
    (a : StandingRow) (l : List StandingRow) :
    (List.orderedInsert r a l).filter p =
      if p a then a :: l.filter p else l.filter p := by
  induction l with
  | nil =>
    rw [List.orderedInsert_nil, List.filter_cons]
  | cons b t ih =>
    rw [List.orderedInsert]
    by_cases hr : r a b
    · rw [if_pos hr, List.filter_cons]
    · rw [if_neg hr, List.filter_cons, ih, List.filter_cons]
      by_cases hpb : p b
      · have hpa : ¬ p a = true := fun hpa => hr (hkey a b hpa hpb)
        rw [if_pos hpb, if_neg hpa, if_neg hpa, if_pos hpb]
      · rw [if_neg hpb, if_neg hpb]

/-- The stable sort does not reorder rows with equal sort keys: filtering
by an exact key commutes with sorting. -/
theorem filter_sortRows (p : StandingRow → Bool)
    (hkey : ∀ x y, p x = true → p y = true → cmpRows x y ≤ 0)
    (l : List StandingRow) : (sortRows l).filter p = l.filter p := by
  rw [sortRows]
  induction l with
  | nil => rfl
  | cons x t ih =>
    rw [List.insertionSort, filter_orderedInsert_key p hkey x _, ih,
      List.filter_cons]

/-- C3: the standings output is sorted descending by points, then
goal-difference, then goals-for, with no further tie-break, and the sort
is stable: filtering by any exact key triple gives the same sequence
before and after sorting, the pre-sort row order is the (deduplicated)
input pool order, and any two rows that tie on all three keys keep their
pre-sort relative order in the output. -/
theorem standings_sort_stable (pool : List TTRow)
    (teamName : String → Option String) (ms : List MatchRow) :
    List.Pairwise (fun x y : StandingRow => x.pts > y.pts ∨ (x.pts = y.pts ∧
      (x.gd > y.gd ∨ (x.gd = y.gd ∧ x.gf ≥ y.gf))))
      (standings pool teamName ms) ∧
    (∀ ptsv gdv gfv : Int,
      (standings pool teamName ms).filter
        (fun r => decide (r.pts = ptsv ∧ r.gd = gdv ∧ r.gf = gfv)) =
      ((standingsTable pool teamName ms).map withGd).filter
        (fun r => decide (r.pts = ptsv ∧ r.gd = gdv ∧ r.gf = gfv))) ∧
    (((standingsTable pool teamName ms).map withGd).map (fun r => r.team_id) =
      setDedup (pool.map (fun x => x.team_id))) ∧
    (∀ x y : StandingRow,
      List.Sublist [x, y] ((standingsTable pool teamName ms).map withGd) →
      x.pts = y.pts → x.gd = y.gd → x.gf = y.gf →
      List.Sublist [x, y] (standings pool teamName ms)) := by
  have hstab : ∀ ptsv gdv gfv : Int,
      (standings pool teamName ms).filter
        (fun r => decide (r.pts = ptsv ∧ r.gd = gdv ∧ r.gf = gfv)) =
      ((standingsTable pool teamName ms).map withGd).filter
        (fun r => decide (r.pts = ptsv ∧ r.gd = gdv ∧ r.gf = gfv)) := by
    intro ptsv gdv gfv
    rw [standings]
    apply filter_sortRows
    intro x y hx hy
    rw [cmpRows_le_iff]
    simp only [decide_eq_true_eq] at hx hy
    omega
  refine ⟨sortRows_sorted _, hstab, ?_, ?_⟩
  · rw [List.map_map]
    have e : ((fun r : StandingRow => r.team_id) ∘ withGd) =
        fun r : StandingRow => r.team_id := rfl
    rw [e, standingsTable_ids]
  · intro x y hsub hp hg hf
    have hx : (fun r : StandingRow =>
        decide (r.pts = x.pts ∧ r.gd = x.gd ∧ r.gf = x.gf)) x = true := by
      simp
    have hy : (fun r : StandingRow =>
        decide (r.pts = x.pts ∧ r.gd = x.gd ∧ r.gf = x.gf)) y = true := by
      simp only [decide_eq_true_eq]
      omega
    have hfil := hsub.filter
      (fun r => decide (r.pts = x.pts ∧ r.gd = x.gd ∧ r.gf = x.gf))
    have e : ([x, y].filter
        (fun r => decide (r.pts = x.pts ∧ r.gd = x.gd ∧ r.gf = x.gf))) =
        [x, y] := by
      rw [List.filter_cons, if_pos hx, List.filter_cons, if_pos hy,
        List.filter_nil]
    rw [e, ← hstab x.pts x.gd x.gf] at hfil
    exact hfil.trans (List.filter_sublist _)

/-! ### ResultRecorder (`saveMatchResult` 1639-1675 and `clampInt` 308-313)

The score input field stores `clampInt(raw, 0, 99)` on every change and
`saveMatchResult` parses the stored string.  A raw input is modelled by
its JavaScript `Number` value (`none` = `NaN`); the stored field is
modelled by `none` for the empty string (never edited, or `NaN` raw
input) and `some c` for the decimal rendering of the clamped integer. -/

/-- `Math.trunc` (rounding toward zero). -/
def jsTrunc (q : ℚ) : Int := if 0 ≤ q then ⌊q⌋ else ⌈q⌉

/-- `clampInt(v, min, max)`: `NaN` yields `""`, otherwise the truncated
value clamped into `[min, max]`, stringified. -/
def clampInt (v : Option ℚ) (mn mx : Int) : Option Int :=
  v.map (fun n => max mn (min mx (jsTrunc n)))

/-- `saveMatchResult` core: reject when either stored field is empty (or
non-numeric), otherwise write both scores and stamp `played_at` with the
current time (admin gating, the Supabase update and UI state resets are
the excluded orchestration layer). -/
def saveMatchResult (editHome editAway : Option Int) (now : String)
    (m : MatchRow) : Except String MatchRow :=
  match editHome, editAway with
  | some hg, some ag =>
    Except.ok { m with
      player1_score := some hg
      player2_score := some ag
      played_at := some now }
  | _, _ => Except.error "Unesi oba rezultata kao brojeve (npr 2 i 1)."

/-- The full submission pipeline: raw input passes through
`clampInt(·, 0, 99)` into the edit fields, which `saveMatchResult` reads. -/
def recordResult (rawHome rawAway : Option ℚ) (now : String) (m : MatchRow) :
    Except String MatchRow :=
  saveMatchResult (clampInt rawHome 0 99) (clampInt rawAway 0 99) now m

/-- C4 counterexample: a negative numeric submission is NOT rejected — the
score is clamped to 0 and the result is saved with `played_at` stamped, so
"non-numeric or negative input fails with the invalid-score error and
leaves the match unchanged" is false at raw home score `-1`. -/
theorem recordResult_negative_accepted :
    recordResult (some (-1)) (some 1) "now"
        ⟨some "t1", some "t2", none, none, none⟩ =
      Except.ok ⟨some "t1", some "t2", some 0, some 1, some "now"⟩ ∧
    ((-1 : ℚ) < 0) := by
  constructor
  · rfl
  · norm_num

/-- C4 amended: the pipeline fails with the invalid-score error exactly
when either raw value is missing or `NaN` — returning the error before
anything is written, so the match is untouched — while any numeric
submission (negative included) is truncated toward zero, clamped into
`[0, 99]` and accepted, setting both scores and stamping played-at. -/
theorem recordResult_validation (rawHome rawAway : Option ℚ) (now : String)
    (m : MatchRow) :
    (rawHome = none ∨ rawAway = none →
      recordResult rawHome rawAway now m =
        Except.error "Unesi oba rezultata kao brojeve (npr 2 i 1).") ∧
    (∀ qh qa, rawHome = some qh → rawAway = some qa →
      recordResult rawHome rawAway now m = Except.ok { m with
        player1_score := some (max 0 (min 99 (jsTrunc qh)))
        player2_score := some (max 0 (min 99 (jsTrunc qa)))
        played_at := some now }) := by
  constructor
  · intro hc
    rcases hc with rfl | rfl
    · rcases rawAway with _ | qa <;> rfl
    · rcases rawHome with _ | qh <;> rfl
  · rintro qh qa rfl rfl
    rfl

theorem recordResult_validation_witness :
    recordResult (some 5) (some (-2)) "ts"
        ⟨some "x", some "y", none, none, none⟩ =
      Except.ok ⟨some "x", some "y", some 5, some 0, some "ts"⟩ := by
  have h := (recordResult_validation (some 5) (some (-2)) "ts"
    ⟨some "x", some "y", none, none, none⟩).2 5 (-2) rfl rfl
  rw [h]
  have e1 : jsTrunc 5 = 5 := by decide
  have e2 : jsTrunc (-2) = -2 := by decide
  rw [e1, e2]
  rfl

/-! ### RosterGate (`lockRoster` 755-776) and DrawAssigner
(`drawTeamsForTournament` 1248-1310, `shuffle` 286-293) -/

structure Player where
  email : String
  name : String
  role : String
deriving DecidableEq, Repr

structure Assignment where
  player_email : String
  team_id : String
deriving DecidableEq, Repr

/-- The destructuring swap `[a[i], a[j]] = [a[j], a[i]]` (no effect when
out of bounds, which the Fisher-Yates loop never is). -/
def listSwap {α : Type} (l : List α) (i j : Nat) : List α :=
  if h : i < l.length ∧ j < l.length then
    (l.set i (l.get ⟨j, h.2⟩)).set j (l.get ⟨i, h.1⟩)
  else l

/-- The Fisher-Yates loop `for (let i = a.length - 1; i > 0; i--)`;
`rand i % (i + 1)` stands for `Math.floor(Math.random() * (i + 1))`,
which lands in `[0, i]`. -/
def fisherYatesAux {α : Type} (rand : Nat → Nat) : List α → Nat → List α
  | a, 0 => a
  | a, i + 1 => fisherYatesAux rand (listSwap a (i + 1) (rand (i + 1) % (i + 2))) i

/-- `shuffle` copies the array and runs the swap loop. -/
def shuffle {α : Type} (l : List α) (rand : Nat → Nat) : List α :=
  fisherYatesAux rand l (l.length - 1)

theorem get_cons_swap_perm {α : Type} :
    ∀ (xs : List α) (k : Nat) (hk : k < xs.length) (x : α),
      (xs.get ⟨k, hk⟩ :: xs.set k x).Perm (x :: xs)
  | y :: t, 0, _, x => List.Perm.swap x y t
  | y :: t, k + 1, hk, x => by
    have hk2 : k < t.length := by
      simp only [List.length_cons] at hk
      omega
    show (t.get ⟨k, hk2⟩ :: y :: t.set k x).Perm (x :: y :: t)
    exact ((List.Perm.swap y (t.get ⟨k, hk2⟩) (t.set k x)).trans
      ((get_cons_swap_perm t k hk2 x).cons y)).trans (List.Perm.swap x y t)

theorem set_set_swap_perm {α : Type} :
    ∀ (l : List α) (i j : Nat) (hi : i < l.length) (hj : j < l.length),
      ((l.set i (l.get ⟨j, hj⟩)).set j (l.get ⟨i, hi⟩)).Perm l
  | [], _, _, hi, _ => absurd hi (by simp)
  | x :: t, 0, 0, _, _ => List.Perm.refl _
  | x :: t, 0, j + 1, hi, hj => by
    have hj2 : j < t.length := by
      simp only [List.length_cons] at hj
      omega
    show (t.get ⟨j, hj2⟩ :: t.set j x).Perm (x :: t)
    exact get_cons_swap_perm t j hj2 x
  | x :: t, i + 1, 0, hi, hj => by
    have hi2 : i < t.length := by
      simp only [List.length_cons] at hi
      omega
    show (t.get ⟨i, hi2⟩ :: t.set i x).Perm (x :: t)
    exact get_cons_swap_perm t i hi2 x
  | x :: t, i + 1, j + 1, hi, hj => by
    have hi2 : i < t.length := by
      simp only [List.length_cons] at hi
      omega
    have hj2 : j < t.length := by
      simp only [List.length_cons] at hj
      omega
    show (x :: (t.set i (t.get ⟨j, hj2⟩)).set j (t.get ⟨i, hi2⟩)).Perm (x :: t)
    exact (set_set_swap_perm t i j hi2 hj2).cons x

theorem listSwap_perm {α : Type} (l : List α) (i j : Nat) :
    (listSwap l i j).Perm l := by
  by_cases h : i < l.length ∧ j < l.length
  · rw [listSwap, dif_pos h]
    exact set_set_swap_perm l i j h.1 h.2
  · rw [listSwap, dif_neg h]

theorem fisherYatesAux_perm {α : Type} (rand : Nat → Nat) :
    ∀ (k : Nat) (l : List α), (fisherYatesAux rand l k).Perm l
  | 0, _ => List.Perm.refl _
  | k + 1, l =>
    (fisherYatesAux_perm rand k _).trans
      (listSwap_perm l (k + 1) (rand (k + 1) % (k + 2)))

/-- The shuffled array is a permutation of the input. -/
theorem shuffle_perm {α : Type} (l : List α) (rand : Nat → Nat) :
    (shuffle l rand).Perm l :=
  fisherYatesAux_perm rand (l.length - 1) l

/-- `lockRoster`: locking requires at least two `role = "player"` entries
(admin check and confirmation prompt are ambient UI concerns); on success
the stored `rosterLocked` flag becomes `true`. -/
def lockRoster (players : List Player) : Except String Bool :=
  if (players.filter (fun p => p.role = "player")).length < 2 then
    Except.error "Greška: treba bar 2 igrača pre zaključavanja rostera."
  else Except.ok true

/-- `drawTeamsForTournament`: refuse while the roster is not locked, then
require ≥ 2 players and a large-enough pool, then zip the player list
against a shuffled pool truncated to the player count (the `onlyPlayers`
and `shuffledTeams` consts are inlined; the delete-then-insert of the
previous draw belongs to the excluded storage layer). -/
def drawTeamsForTournament (rosterLocked : Bool) (players : List Player)
    (tournamentTeams : List TTRow) (rand : Nat → Nat) :
    Except String (List Assignment) :=
  if rosterLocked = false then
    Except.error "Greška: prvo pošalji invite i zaključaj roster, tek onda Žreb."
  else if (players.filter (fun p => p.role = "player")).length < 2 then
    Except.error "Treba bar 2 igrača."
  else if tournamentTeams.length <
      (players.filter (fun p => p.role = "player")).length then
    Except.error "Nema dovoljno timova u turniru (mora bar koliko i igrača)."
  else
    Except.ok (List.zipWith (fun p t => Assignment.mk p.email t.team_id)
      (players.filter (fun p => p.role = "player"))
      ((shuffle tournamentTeams rand).take
        (players.filter (fun p => p.role = "player")).length))

theorem zipWith_assignment_emails :
    ∀ (ps : List Player) (ts : List TTRow), ps.length ≤ ts.length →
      (List.zipWith (fun p t => Assignment.mk p.email t.team_id) ps ts).map
        (fun x => x.player_email) = ps.map (fun p => p.email)
  | [], _, _ => rfl
  | _ :: _, [], h => absurd h (by simp)
  | p :: ps, t :: ts, h => by
    simp only [List.zipWith_cons_cons, List.map_cons, List.cons.injEq]
    refine ⟨trivial, zipWith_assignment_emails ps ts ?_⟩
    simp only [List.length_cons] at h
    omega

theorem zipWith_assignment_teams :
    ∀ (ps : List Player) (ts : List TTRow),
      (List.zipWith (fun p t => Assignment.mk p.email t.team_id) ps ts).map
        (fun x => x.team_id) = (ts.take ps.length).map (fun t => t.team_id)
  | [], _ => by simp
  | _ :: _, [] => by simp
  | p :: ps, t :: ts => by
    simp only [List.zipWith_cons_cons, List.map_cons, List.length_cons,
      List.take_succ_cons, List.cons.injEq]
    exact ⟨trivial, zipWith_assignment_teams ps ts⟩

/-- C8: the roster gate transitions to Locked only when the player-role
roster has at least 2 entries, failing with the roster-too-small error
otherwise, and the draw never runs while the gate is unlocked: invoked
with the lock flag down it fails with the roster-not-locked error and
produces no assignments. -/
theorem roster_gate (players : List Player) (teams : List TTRow)
    (rand : Nat → Nat) :
    ((players.filter (fun p => p.role = "player")).length < 2 →
      lockRoster players =
        Except.error "Greška: treba bar 2 igrača pre zaključavanja rostera.") ∧
    (2 ≤ (players.filter (fun p => p.role = "player")).length →
      lockRoster players = Except.ok true) ∧
    drawTeamsForTournament false players teams rand =
      Except.error "Greška: prvo pošalji invite i zaključaj roster, tek onda Žreb." := by
  refine ⟨?_, ?_, rfl⟩
  · intro h
    rw [lockRoster, if_pos h]
  · intro h
    rw [lockRoster, if_neg (by omega)]

theorem roster_gate_witness :
    lockRoster [Player.mk "e1" "n1" "player"] =
      Except.error "Greška: treba bar 2 igrača pre zaključavanja rostera." ∧
    lockRoster [Player.mk "e1" "n1" "player", Player.mk "e2" "n2" "player"] =
      Except.ok true ∧
    drawTeamsForTournament false [] [] (fun _ => 0) =
      Except.error "Greška: prvo pošalji invite i zaključaj roster, tek onda Žreb." := by
  refine ⟨?_, ?_, ?_⟩
  · exact (roster_gate [Player.mk "e1" "n1" "player"] [] (fun _ => 0)).1
      (by decide)
  · exact (roster_gate [Player.mk "e1" "n1" "player",
      Player.mk "e2" "n2" "player"] [] (fun _ => 0)).2.1 (by decide)
  · exact (roster_gate [] [] (fun _ => 0)).2.2

/-- C5: with the gate locked the draw requires at least two player-role
players and a pool at least as large (failing with the respective error
messages otherwise), and on valid input the result is a bijective
assignment: one assignment per player in roster order, no player or team
repeated (given the data model uniqueness of emails and pool team ids),
and every assigned team belongs to the supplied pool. -/
theorem draw_bijection (players : List Player) (teams : List TTRow)
    (rand : Nat → Nat) :
    ((players.filter (fun p => p.role = "player")).length < 2 →
      drawTeamsForTournament true players teams rand =
        Except.error "Treba bar 2 igrača.") ∧
    (2 ≤ (players.filter (fun p => p.role = "player")).length →
      teams.length < (players.filter (fun p => p.role = "player")).length →
      drawTeamsForTournament true players teams rand =
        Except.error "Nema dovoljno timova u turniru (mora bar koliko i igrača).") ∧
    (2 ≤ (players.filter (fun p => p.role = "player")).length →
      (players.filter (fun p => p.role = "player")).length ≤ teams.length →
      ∃ rows, drawTeamsForTournament true players teams rand = Except.ok rows ∧
        rows.length = (players.filter (fun p => p.role = "player")).length ∧
        rows.map (fun x => x.player_email) =
          (players.filter (fun p => p.role = "player")).map (fun p => p.email) ∧
        ((players.map (fun p => p.email)).Nodup →
          (rows.map (fun x => x.player_email)).Nodup) ∧
        ((teams.map (fun t => t.team_id)).Nodup →
          (rows.map (fun x => x.team_id)).Nodup) ∧
        (∀ x ∈ rows, x.team_id ∈ teams.map (fun t => t.team_id))) := by
  refine ⟨?_, ?_, ?_⟩
  · intro h
    rw [drawTeamsForTournament, if_neg (by simp), if_pos h]
  · intro h2 hlt
    rw [drawTeamsForTournament, if_neg (by simp), if_neg (by omega), if_pos hlt]
  · intro h2 hpool
    have hshlen : (shuffle teams rand).length = teams.length :=
      (shuffle_perm teams rand).length_eq
    have htake : ((shuffle teams rand).take
        (players.filter (fun p => p.role = "player")).length).length =
        (players.filter (fun p => p.role = "player")).length := by
      rw [List.length_take, hshlen]
      omega
    have hteam_map : (List.zipWith (fun p t => Assignment.mk p.email t.team_id)
          (players.filter (fun p => p.role = "player"))
          ((shuffle teams rand).take
            (players.filter (fun p => p.role = "player")).length)).map
          (fun x => x.team_id) =
        ((shuffle teams rand).take
          (players.filter (fun p => p.role = "player")).length).map
          (fun t => t.team_id) := by
      rw [zipWith_assignment_teams, List.take_of_length_le (le_of_eq htake)]
    refine ⟨List.zipWith (fun p t => Assignment.mk p.email t.team_id)
        (players.filter (fun p => p.role = "player"))
        ((shuffle teams rand).take
          (players.filter (fun p => p.role = "player")).length),
      ?_, ?_, ?_, ?_, ?_, ?_⟩
    · rw [drawTeamsForTournament, if_neg (by simp), if_neg (by omega),
        if_neg (by omega)]
    · rw [List.length_zipWith, htake]
      omega
    · exact zipWith_assignment_emails _ _ (le_of_eq htake.symm)
    · intro hnd
      rw [zipWith_assignment_emails _ _ (le_of_eq htake.symm)]
      have hsub : ((players.filter (fun p => p.role = "player")).map
          (fun p => p.email)).Sublist (players.map (fun p => p.email)) :=
        (List.filter_sublist players).map _
      exact hnd.sublist hsub
    · intro hnd
      rw [hteam_map, List.map_take]
      have hperm : ((shuffle teams rand).map (fun t => t.team_id)).Perm
          (teams.map (fun t => t.team_id)) := (shuffle_perm teams rand).map _
      have hnd2 : ((shuffle teams rand).map (fun t => t.team_id)).Nodup :=
        (hperm.nodup_iff).2 hnd
      exact hnd2.sublist (List.take_sublist _ _)
    · intro x hx
      have hmem := List.mem_map_of_mem (fun y => y.team_id) hx
      rw [hteam_map] at hmem
      obtain ⟨t, ht, hte⟩ := List.mem_map.1 hmem
      have ht2 : t ∈ shuffle teams rand := List.take_subset _ _ ht
      have ht3 : t ∈ teams := (shuffle_perm teams rand).subset ht2
      have hte2 : t.team_id = x.team_id := hte
      rw [← hte2]
      exact List.mem_map_of_mem _ ht3

theorem draw_bijection_witness :
    drawTeamsForTournament true [Player.mk "e1" "n1" "player"] []
        (fun _ => 0) = Except.error "Treba bar 2 igrača." ∧
    (∃ rows, drawTeamsForTournament true
        [Player.mk "e1" "n1" "player", Player.mk "e2" "n2" "player"]
        [TTRow.mk "t1", TTRow.mk "t2"] (fun _ => 0) = Except.ok rows ∧
      rows.length = 2) := by
  constructor
  · exact (draw_bijection [Player.mk "e1" "n1" "player"] [] (fun _ => 0)).1
      (by decide)
  · obtain ⟨rows, h1, h2, _⟩ := (draw_bijection
      [Player.mk "e1" "n1" "player", Player.mk "e2" "n2" "player"]
      [TTRow.mk "t1", TTRow.mk "t2"] (fun _ => 0)).2.2 (by decide) (by decide)
    refine ⟨rows, h1, ?_⟩
    rw [h2]
    decide

/-! ### TwoRoundFixtureBuilder (`saveRound1AndGenerateRound2`,
src/unnamed/part_001) -/

inductive FixtureSource
  | manual
  | auto_reverse
deriving DecidableEq, Repr

structure FixtureRow where
  round_number : Nat
  match_number : Int
  home_team_id : String
  away_team_id : String
  is_bye : Bool
  source : FixtureSource
deriving DecidableEq, Repr

structure DraftRow where
  match_number : Int
  home_team_id : String
  away_team_id : String
deriving DecidableEq, Repr

/-- JavaScript `String.prototype.trim`: strip leading and trailing
whitespace (embedded structurally over the character list so that it
evaluates). -/
def jsTrim (s : String) : String :=
  String.mk ((((s.data.dropWhile Char.isWhitespace).reverse.dropWhile
    Char.isWhitespace)).reverse)

/-- The `.trim()` cleanup of the submitted drafts. -/
def cleanDrafts (drafts : List DraftRow) : List DraftRow :=
  drafts.map (fun d => { d with
    home_team_id := jsTrim d.home_team_id
    away_team_id := jsTrim d.away_team_id })

/-- The per-draft validation loop; the first offending draft throws. -/
def validateDrafts : List DraftRow → Option String
  | [] => none
  | d :: ds =>
    if d.home_team_id = "" ∨ d.away_team_id = "" then
      some ("Popuni oba tima za meč " ++ toString d.match_number ++ ".")
    else if d.home_team_id = d.away_team_id then
      some ("Ne može isti tim vs isti tim (meč " ++ toString d.match_number ++ ").")
    else validateDrafts ds

/-- `const used = cleaned.flatMap(d => [d.home_team_id, d.away_team_id])`. -/
def usedIds (cleaned : List DraftRow) : List String :=
  cleaned.flatMap (fun d => [d.home_team_id, d.away_team_id])

def mkRound1 (d : DraftRow) : FixtureRow :=
  ⟨1, d.match_number, d.home_team_id, d.away_team_id, false,
    FixtureSource.manual⟩

def mkRound2 (d : DraftRow) : FixtureRow :=
  ⟨2, d.match_number, d.away_team_id, d.home_team_id, false,
    FixtureSource.auto_reverse⟩

/-- `saveRound1AndGenerateRound2` as a pure function from the submitted
drafts to the replacement fixture set (the constant tournament id and the
Supabase delete/insert are the excluded storage layer). -/
def saveRound1AndGenerateRound2 (drafts : List DraftRow) :
    Except String (List FixtureRow) :=
  let cleaned := cleanDrafts drafts
  match validateDrafts cleaned with
  | some e => Except.error e
  | none =>
    if (setDedup (usedIds cleaned)).length ≠ (usedIds cleaned).length then
      Except.error "Isti tim je upisan više puta u Kolu 1. Svaki tim mora biti tačno jednom."
    else
      Except.ok (cleaned.map mkRound1 ++ cleaned.map mkRound2)

/-- The surrounding effect sequence: every validation failure throws
before the delete-and-insert, so the stored fixture set is replaced only
on success. -/
def runSaveRound1 (stored : List FixtureRow) (drafts : List DraftRow) :
    List FixtureRow × Option String :=
  match saveRound1AndGenerateRound2 drafts with
  | Except.ok rows => (rows, none)
  | Except.error e => (stored, some e)

theorem homes_sublist_used (cleaned : List DraftRow) :
    (cleaned.map (fun d => d.home_team_id)).Sublist (usedIds cleaned) := by
  induction cleaned with
  | nil => simp [usedIds]
  | cons d ds ih =>
    rw [usedIds, List.flatMap_cons, List.map_cons]
    exact (ih.cons _).cons₂ _

/-- C6: for every accepted draft list the emitted set is the round-1
fixtures (round 1, source `manual`, pairings as drafted) followed by the
mechanically mirrored round-2 fixtures (round 2, swapped home/away, same
match numbers, source `auto_reverse` — the spec's "auto-generated" tag),
and for each round-1 fixture (m, A, B) exactly one round-2 fixture is
(m, B, A). -/
theorem two_round_mirror (drafts : List DraftRow) (rows : List FixtureRow)
    (hok : saveRound1AndGenerateRound2 drafts = Except.ok rows) :
    rows = (cleanDrafts drafts).map mkRound1 ++
      (cleanDrafts drafts).map mkRound2 ∧
    (∀ f ∈ (cleanDrafts drafts).map mkRound1,
      f.round_number = 1 ∧ f.source = FixtureSource.manual) ∧
    (∀ g ∈ (cleanDrafts drafts).map mkRound2,
      g.round_number = 2 ∧ g.source = FixtureSource.auto_reverse) ∧
    (∀ f ∈ (cleanDrafts drafts).map mkRound1,
      ((cleanDrafts drafts).map mkRound2).countP (fun g =>
        decide (g.match_number = f.match_number ∧
          g.home_team_id = f.away_team_id ∧
          g.away_team_id = f.home_team_id)) = 1) := by
  rw [saveRound1AndGenerateRound2] at hok
  rcases hval : validateDrafts (cleanDrafts drafts) with _ | e
  case some =>
    rw [hval] at hok
    cases hok
  rw [hval] at hok
  by_cases hdup : (setDedup (usedIds (cleanDrafts drafts))).length ≠
      (usedIds (cleanDrafts drafts)).length
  · rw [if_pos hdup] at hok
    cases hok
  rw [if_neg hdup] at hok
  have hrows : rows = (cleanDrafts drafts).map mkRound1 ++
      (cleanDrafts drafts).map mkRound2 := (Except.ok.inj hok).symm
  have hused : (usedIds (cleanDrafts drafts)).Nodup :=
    nodup_of_setDedup_length (by omega)
  have hhomes : ((cleanDrafts drafts).map (fun d => d.home_team_id)).Nodup :=
    hused.sublist (homes_sublist_used _)
  have hclean : (cleanDrafts drafts).Nodup := List.Nodup.of_map _ hhomes
  refine ⟨hrows, ?_, ?_, ?_⟩
  · intro f hf
    obtain ⟨d, _, rfl⟩ := List.mem_map.1 hf
    exact ⟨rfl, rfl⟩
  · intro g hg
    obtain ⟨d, _, rfl⟩ := List.mem_map.1 hg
    exact ⟨rfl, rfl⟩
  · intro f hf
    obtain ⟨d, hd, rfl⟩ := List.mem_map.1 hf
    rw [List.countP_map]
    apply countP_eq_one_of_unique hclean hd
    · simp only [Function.comp_apply, mkRound1, mkRound2, decide_eq_true_eq]
      exact ⟨trivial, trivial, trivial⟩
    · intro d2 hd2 hpred
      simp only [Function.comp_apply, mkRound1, mkRound2,
        decide_eq_true_eq] at hpred
      exact List.inj_on_of_nodup_map hhomes hd2 hd hpred.2.2

/-- Successful run, phrased through `Nodup` so that concrete instances
evaluate. -/
theorem saveRound1_eq_ok (drafts : List DraftRow)
    (hval : validateDrafts (cleanDrafts drafts) = none)
    (hnd : (usedIds (cleanDrafts drafts)).Nodup) :
    saveRound1AndGenerateRound2 drafts = Except.ok
      ((cleanDrafts drafts).map mkRound1 ++ (cleanDrafts drafts).map mkRound2) := by
  rw [saveRound1AndGenerateRound2, hval]
  dsimp only
  rw [if_neg (by rw [setDedup_eq_self_of_nodup hnd]; exact fun hc => hc rfl)]

theorem two_round_mirror_witness :
    ((cleanDrafts [DraftRow.mk 1 "A" "B", DraftRow.mk 2 "C" "D"]).map
      mkRound2).countP (fun g =>
        decide (g.match_number = (1 : Int) ∧ g.home_team_id = "B" ∧
          g.away_team_id = "A")) = 1 := by
  have h := two_round_mirror [DraftRow.mk 1 "A" "B", DraftRow.mk 2 "C" "D"]
    ((cleanDrafts [DraftRow.mk 1 "A" "B", DraftRow.mk 2 "C" "D"]).map mkRound1 ++
     (cleanDrafts [DraftRow.mk 1 "A" "B", DraftRow.mk 2 "C" "D"]).map mkRound2)
    (saveRound1_eq_ok _ (by decide) (by decide))
  exact h.2.2.2 (FixtureRow.mk 1 1 "A" "B" false FixtureSource.manual)
    (by decide)

theorem validateDrafts_append_clean :
    ∀ (pre l : List DraftRow),
      (∀ d' ∈ pre, d'.home_team_id ≠ "" ∧ d'.away_team_id ≠ "" ∧
        d'.home_team_id ≠ d'.away_team_id) →
      validateDrafts (pre ++ l) = validateDrafts l
  | [], l, _ => rfl
  | d :: pre, l, hclean => by
    obtain ⟨h1, h2, h3⟩ := hclean d (List.mem_cons_self _ _)
    rw [List.cons_append, validateDrafts,
      if_neg (fun hc => hc.elim h1 h2), if_neg h3]
    exact validateDrafts_append_clean pre l
      (fun d' hd' => hclean d' (List.mem_cons_of_mem _ hd'))

/-- C7: the builder rejects a draft list containing an empty (post-trim)
home or away id with the incomplete-pairing error, a team paired against
itself with the self-pairing error, and a team id used twice across all
drafts with the duplicate-usage error; in each case the error is raised
before the delete-and-insert, so the stored fixtures are untouched. -/
theorem two_round_validation (stored : List FixtureRow)
    (drafts : List DraftRow) :
    (∀ pre d post, cleanDrafts drafts = pre ++ d :: post →
      (∀ d' ∈ pre, d'.home_team_id ≠ "" ∧ d'.away_team_id ≠ "" ∧
        d'.home_team_id ≠ d'.away_team_id) →
      (d.home_team_id = "" ∨ d.away_team_id = "") →
      runSaveRound1 stored drafts = (stored,
        some ("Popuni oba tima za meč " ++ toString d.match_number ++ "."))) ∧
    (∀ pre d post, cleanDrafts drafts = pre ++ d :: post →
      (∀ d' ∈ pre, d'.home_team_id ≠ "" ∧ d'.away_team_id ≠ "" ∧
        d'.home_team_id ≠ d'.away_team_id) →
      d.home_team_id ≠ "" → d.away_team_id ≠ "" →
      d.home_team_id = d.away_team_id →
      runSaveRound1 stored drafts = (stored,
        some ("Ne može isti tim vs isti tim (meč " ++
          toString d.match_number ++ ")."))) ∧
    ((∀ d ∈ cleanDrafts drafts, d.home_team_id ≠ "" ∧
        d.away_team_id ≠ "" ∧ d.home_team_id ≠ d.away_team_id) →
      ¬ (usedIds (cleanDrafts drafts)).Nodup →
      runSaveRound1 stored drafts = (stored,
        some "Isti tim je upisan više puta u Kolu 1. Svaki tim mora biti tačno jednom.")) := by
  refine ⟨?_, ?_, ?_⟩
  · intro pre d post hsplit hpre hd
    have hval : validateDrafts (cleanDrafts drafts) =
        some ("Popuni oba tima za meč " ++ toString d.match_number ++ ".") := by
      rw [hsplit, validateDrafts_append_clean pre _ hpre, validateDrafts,
        if_pos hd]
    rw [runSaveRound1, saveRound1AndGenerateRound2]
    rw [hval]
  · intro pre d post hsplit hpre h1 h2 h3
    have hval : validateDrafts (cleanDrafts drafts) =
        some ("Ne može isti tim vs isti tim (meč " ++
          toString d.match_number ++ ").") := by
      rw [hsplit, validateDrafts_append_clean pre _ hpre, validateDrafts,
        if_neg (fun hc => hc.elim h1 h2), if_pos h3]
    rw [runSaveRound1, saveRound1AndGenerateRound2]
    rw [hval]
  · intro hclean hdup
    have hval : validateDrafts (cleanDrafts drafts) = none := by
      have := validateDrafts_append_clean (cleanDrafts drafts) [] hclean
      simpa using this
    have hlen : (setDedup (usedIds (cleanDrafts drafts))).length ≠
        (usedIds (cleanDrafts drafts)).length := by
      intro hc
      exact hdup (nodup_of_setDedup_length hc)
    rw [runSaveRound1, saveRound1AndGenerateRound2]
    rw [hval]
    dsimp only
    rw [if_pos hlen]

theorem two_round_validation_witness :
    runSaveRound1 [] [DraftRow.mk 1 "" "B"] =
      ([], some "Popuni oba tima za meč 1.") ∧
    runSaveRound1 [] [DraftRow.mk 1 "A" "A"] =
      ([], some "Ne može isti tim vs isti tim (meč 1).") ∧
    runSaveRound1 [] [DraftRow.mk 1 "A" "B", DraftRow.mk 2 "A" "C"] =
      ([], some "Isti tim je upisan više puta u Kolu 1. Svaki tim mora biti tačno jednom.") := by
  refine ⟨?_, ?_, ?_⟩
  · exact (two_round_validation [] [DraftRow.mk 1 "" "B"]).1
      [] (DraftRow.mk 1 "" "B") [] (by rfl) (by simp) (by decide)
  · exact (two_round_validation [] [DraftRow.mk 1 "A" "A"]).2.1
      [] (DraftRow.mk 1 "A" "A") [] (by rfl) (by simp)
      (by decide) (by decide) (by decide)
  · exact (two_round_validation []
      [DraftRow.mk 1 "A" "B", DraftRow.mk 2 "A" "C"]).2.2
      (by decide) (by decide)

theorem standings_sort_stable_witness :
    List.Sublist [withGd (zeroRow "t1" "t1"), withGd (zeroRow "t2" "t2")]
      (standings [TTRow.mk "t1", TTRow.mk "t2"] (fun _ => none) []) := by
  have hl : setDedup ([TTRow.mk "t1", TTRow.mk "t2"].map
      (fun x => x.team_id)) = ["t1", "t2"] :=
    setDedup_eq_self_of_nodup (by decide)
  have hpre : (standingsTable [TTRow.mk "t1", TTRow.mk "t2"]
      (fun _ => none) []).map withGd =
      [withGd (zeroRow "t1" "t1"), withGd (zeroRow "t2" "t2")] := by
    rw [standingsTable, List.foldl_nil, seedRows, hl]
    rfl
  exact (standings_sort_stable [TTRow.mk "t1", TTRow.mk "t2"]
    (fun _ => none) []).2.2.2 (withGd (zeroRow "t1" "t1"))
    (withGd (zeroRow "t2" "t2"))
    (by rw [hpre]) rfl rfl rfl
